import Mathlib

/-
Verification of the temporal-consolidation tracker implemented by
`lepp::SmoothObstacleAggregator` (src/lepp2/SmoothObstacleAggregator.hpp).

The aggregator state and every member function are embedded shallowly:
`std::map` becomes a key-sorted association list with the same ascending
iteration order, `double` arithmetic is idealized as exact rational
arithmetic, and in-place mutation of shared model objects becomes explicit
value passing (a function that mutates observations returns the updated
observation list).

The geometry model (`Coordinate`, `ObjectModel` and its variants) lives in
lepp2/legacy/models/ObjectModel.hpp, which is not part of the reviewed
sources; those definitions are modelled from the specification of the
geometry interface (reference point, rigid translation, composite child
list) and are marked as such below.
-/

namespace Lepp

/-- Modelled from the spec: the missing legacy `Coordinate` type, a point
with three real coordinates, here idealized over ℚ. -/
structure Coordinate where
  x : ℚ
  y : ℚ
  z : ℚ

instance : Add Coordinate :=
  ⟨fun a b => ⟨a.x + b.x, a.y + b.y, a.z + b.z⟩⟩

instance : Sub Coordinate :=
  ⟨fun a b => ⟨a.x - b.x, a.y - b.y, a.z - b.z⟩⟩

instance : HDiv Coordinate ℚ Coordinate :=
  ⟨fun a k => ⟨a.x / k, a.y / k, a.z / k⟩⟩

/- Modelled from the spec: the missing legacy `ObjectModel` hierarchy as a
closed shape union. A model carries an id (written by `set_id`), the sphere
and capsule variants carry their defining geometry, and the composite
variant carries a recursively-typed ordered child list (`ModelList` plays
the role of the child vector of `CompositeModel`). -/
mutual
inductive ObjectModel where
  | sphere (id : Int) (center : Coordinate) (radius : ℚ) : ObjectModel
  | capsule (id : Int) (first : Coordinate) (second : Coordinate) (radius : ℚ) : ObjectModel
  | composite (id : Int) (models : ModelList) : ObjectModel
inductive ModelList where
  | nil : ModelList
  | cons (m : ObjectModel) (rest : ModelList) : ModelList
end

def ModelList.len : ModelList → Nat
  | .nil => 0
  | .cons _ rest => 1 + rest.len

/- Modelled from the spec: every model exposes a representative reference
point (`center_point` in the legacy interface); a sphere is represented by
its center, a capsule by the midpoint of its two defining points, and a
composite by the centroid of the reference points of its children. -/
mutual
def ObjectModel.center_point : ObjectModel → Coordinate
  | .sphere _ c _ => c
  | .capsule _ a b _ => (a + b) / (2 : ℚ)
  | .composite _ ms => ms.centerSum / ((ms.len : ℚ))
def ModelList.centerSum : ModelList → Coordinate
  | .nil => ⟨0, 0, 0⟩
  | .cons m rest => m.center_point + rest.centerSum
end

/- The translation performed by `BlendVisitor` (source lines 14-30: a sphere
moves its center, a capsule moves both of its points), extended to the
composite variant as modelled from the spec: a composite recursively
translates every child by the same vector. -/
mutual
def ObjectModel.blend (v : Coordinate) : ObjectModel → ObjectModel
  | .sphere i c r => .sphere i (c + v) r
  | .capsule i a b r => .capsule i (a + v) (b + v) r
  | .composite i ms => .composite i (ms.blendAll v)
def ModelList.blendAll (v : Coordinate) : ModelList → ModelList
  | .nil => .nil
  | .cons m rest => .cons (m.blend v) (rest.blendAll v)
end

/-- Modelled from the spec: the id assignment performed through the legacy
`set_id` member; it overwrites the stored id and leaves the geometry alone. -/
def ObjectModel.set_id (m : ObjectModel) (i : Int) : ObjectModel :=
  match m with
  | .sphere _ c r => .sphere i c r
  | .capsule _ a b r => .capsule i a b r
  | .composite _ ms => .composite i ms

def ObjectModel.modelId : ObjectModel → Int
  | .sphere i _ _ => i
  | .capsule i _ _ _ => i
  | .composite i _ => i

/- Well-formed geometry: every composite submodel has a nonempty child
list, so that its centroid reference point is meaningful. -/
mutual
def ObjectModel.wf : ObjectModel → Prop
  | .sphere _ _ _ => True
  | .capsule _ _ _ _ => True
  | .composite _ ms => (ms.len ≠ 0) ∧ ms.wfAll
def ModelList.wfAll : ModelList → Prop
  | .nil => True
  | .cons m rest => m.wf ∧ rest.wfAll
end

/-! ### Association-list embedding of `std::map<model_id_t, V>`

A `std::map` keyed by ids is embedded as a list of key-value pairs kept in
strictly ascending key order, which is also its iteration order. -/

def mapFind {α : Type} (k : Int) : List (Int × α) → Option α
  | [] => none
  | e :: rest => if e.1 = k then some e.2 else mapFind k rest

def mapInsert {α : Type} (k : Int) (v : α) : List (Int × α) → List (Int × α)
  | [] => [(k, v)]
  | e :: rest =>
    if k < e.1 then (k, v) :: e :: rest
    else if k = e.1 then (k, v) :: rest
    else e :: mapInsert k v rest

def mapErase {α : Type} (k : Int) : List (Int × α) → List (Int × α)
  | [] => []
  | e :: rest => if e.1 = k then rest else e :: mapErase k rest

/-- The key-ordering invariant of the `std::map` embedding. -/
def MapWF {α : Type} (l : List (Int × α)) : Prop :=
  l.Pairwise (fun a b => a.1 < b.1)

/-! ### The aggregator state

The private members of `SmoothObstacleAggregator` (source lines 145-188).
`materialized_models_` stores shared pointers to exactly the models that
are also stored in `tracked_models_`, and `model_idx_in_list_` maps an id
to the position of its pointer in that list; the pair of structures is
embedded as the list of materialized ids in their insertion order, with
membership of an id standing for presence of a `model_idx_in_list_` entry
and the model itself recovered from `tracked_models_` on demand. -/

structure AggState where
  next_model_id : Int
  tracked_models : List (Int × ObjectModel)
  frames_found : List (Int × Int)
  frames_lost : List (Int × Int)
  materialized_models : List Int
  frame_cnt : Int

/-- The initial state established by the constructor (source lines 191-192). -/
def initState : AggState :=
  { next_model_id := 0, tracked_models := [], frames_found := [],
    frames_lost := [], materialized_models := [], frame_cnt := 0 }

/-- Member function `nextModelId` (source lines 200-202): returns the counter and bumps it. -/
def nextModelId (st : AggState) : Int × AggState :=
  (st.next_model_id, { st with next_model_id := st.next_model_id + 1 })

/-- The squared Euclidean distance computed inline by `getMatchByDistance`
(source lines 212-215). -/
def sqDist (p query : Coordinate) : ℚ :=
  (p.x - query.x) * (p.x - query.x) +
  (p.y - query.y) * (p.y - query.y) +
  (p.z - query.z) * (p.z - query.z)

/-- One iteration of the loop of `getMatchByDistance` (source lines 210-227);
the accumulator mirrors the local variables `(found, min_dist, match)`. -/
def matchAccum (query_point : Coordinate) (acc : Bool × ℚ × Int)
    (elem : Int × ObjectModel) : Bool × ℚ × Int :=
  let p := elem.2.center_point
  let dist := sqDist p query_point
  if dist ≤ 5 / 100 then
    let min_dist := if !acc.1 then dist else acc.2.1
    if dist ≤ min_dist then (true, dist, elem.1) else (true, min_dist, acc.2.2)
  else acc

/-- Member function `getMatchByDistance` (source lines 204-234): scan the tracked models in
ascending id order keeping the best accepted match; return it, or a fresh
id from `nextModelId` when no tracked model was accepted. -/
def getMatchByDistance (st : AggState) (model : ObjectModel) : Int × AggState :=
  let query_point := model.center_point
  let r := st.tracked_models.foldl (matchAccum query_point) (false, 10000000000, 0)
  if r.1 then (r.2.2, st) else nextModelId st

/-- The scan-loop accumulator of `matchToPrevious` (source lines 243-265):
the evolving state (only its id counter changes during the scan), the
`correspondence` map, the deferred `new_in_frame` list and the index `i`. -/
structure ScanAcc where
  st : AggState
  correspondence : List (Int × Nat)
  new_in_frame : List (Int × Nat)
  i : Nat

/-- One iteration of the scan loop of `matchToPrevious` (source lines
254-265): match the observation, record the correspondence (overwriting any
entry already present for that id), and defer insertion when the id is not
yet tracked. -/
def scanStep (acc : ScanAcc) (new_obstacle : ObjectModel) : ScanAcc :=
  let r := getMatchByDistance acc.st new_obstacle
  { st := r.2,
    correspondence := mapInsert r.1 acc.i acc.correspondence,
    new_in_frame :=
      if (mapFind r.1 r.2.tracked_models).isNone then
        acc.new_in_frame ++ [(r.1, acc.i)]
      else acc.new_in_frame,
    i := acc.i + 1 }

/-- One iteration of the insertion loop of `matchToPrevious` (source lines
269-278). The source stores the shared pointer to the observation and then
calls `set_id` through it, so the tracked entry and the observation both
carry the assigned id; with value semantics the id is written first and the
updated observation is both stored and written back into the batch. -/
def insertNewTracked (acc : AggState × List ObjectModel) (e : Int × Nat) :
    AggState × List ObjectModel :=
  match acc.2.get? e.2 with
  | some obs =>
    let obs := obs.set_id e.1
    ({ acc.1 with
        tracked_models := mapInsert e.1 obs acc.1.tracked_models,
        frames_lost := mapInsert e.1 0 acc.1.frames_lost,
        frames_found := mapInsert e.1 0 acc.1.frames_found },
     acc.2.set e.2 obs)
  | none => acc

/-- Member function `matchToPrevious` (source lines 236-281): scan the whole batch against
the pre-frame tracked table, then insert the deferred new models. Returns
the correspondence map, the updated state and the (mutated) batch. -/
def matchToPrevious (st : AggState) (new_obstacles : List ObjectModel) :
    List (Int × Nat) × AggState × List ObjectModel :=
  let acc := new_obstacles.foldl scanStep ⟨st, [], [], 0⟩
  let r := acc.new_in_frame.foldl insertNewTracked (acc.st, new_obstacles)
  (acc.correspondence, r.1, r.2)

/-- The per-model body of `adaptTracked` (source lines 289-300): blend the
tracked model halfway toward its new observation, and on every 30th frame
replace the child list wholesale when both the (just blended) tracked model
and the new observation are the composite variant (`set_models` through the
two `dynamic_cast` results); otherwise the refresh is a no-op. -/
def adaptModel (frame_cnt : Int) (tracked newObs : ObjectModel) : ObjectModel :=
  let translation_vec := (newObs.center_point - tracked.center_point) / (2 : ℚ)
  let blended := tracked.blend translation_vec
  if frame_cnt % 30 = 0 then
    match blended, newObs with
    | .composite tid _, .composite _ newModels => .composite tid newModels
    | b, _ => b
  else blended

/-- One iteration of `adaptTracked` (source lines 286-301). The two lookups
cannot fail on states produced by `matchToPrevious`, where every
correspondence id is tracked and every index is in range; the fallthrough
mirrors the fact that the source would dereference an invalid handle. -/
def adaptStep (new_obstacles : List ObjectModel) (st : AggState)
    (elem : Int × Nat) : AggState :=
  match mapFind elem.1 st.tracked_models, new_obstacles.get? elem.2 with
  | some tracked, some newObs =>
    { st with tracked_models :=
        mapInsert elem.1 (adaptModel st.frame_cnt tracked newObs) st.tracked_models }
  | _, _ => st

/-- Member function `adaptTracked` (source lines 283-302): fold the per-entry adaptation
over the correspondence map in ascending id order. -/
def adaptTracked (st : AggState) (correspondence : List (Int × Nat))
    (new_obstacles : List ObjectModel) : AggState :=
  correspondence.foldl (adaptStep new_obstacles) st

/-- One iteration of `updateLostAndFound` (source lines 306-321): a matched
model resets its lost counter and, only when it is not materialized,
increments its found counter; an unmatched model increments its lost
counter and resets its found counter. -/
def lostFoundStep (new_matches : List (Int × Nat)) (st : AggState)
    (elem : Int × ObjectModel) : AggState :=
  let model_id := elem.1
  if (mapFind model_id new_matches).isSome then
    let st :=
      if st.materialized_models.contains model_id then st
      else
        { st with
            frames_found :=
              mapInsert model_id ((mapFind model_id st.frames_found).getD 0 + 1)
                st.frames_found }
    { st with frames_lost := mapInsert model_id 0 st.frames_lost }
  else
    { st with
        frames_lost :=
          mapInsert model_id ((mapFind model_id st.frames_lost).getD 0 + 1) st.frames_lost,
        frames_found := mapInsert model_id 0 st.frames_found }

/-- Member function `updateLostAndFound` (source lines 304-322): apply the per-model streak
update to every tracked model. -/
def updateLostAndFound (st : AggState) (new_matches : List (Int × Nat)) : AggState :=
  st.tracked_models.foldl (lostFoundStep new_matches) st

/-- One iteration of `dropLostObjects` (source lines 329-352): a model lost
for at least `LOST_LIMIT = 10` frames is erased from the tracked table, the
materialized list with its position index, the found counters and the lost
counters; each erasure is guarded in the source and erasing an absent entry
is a no-op here as well. -/
def dropStep (st : AggState) (e : Int × Int) : AggState :=
  if 10 ≤ e.2 then
    { st with
        tracked_models := mapErase e.1 st.tracked_models,
        materialized_models := st.materialized_models.erase e.1,
        frames_found := mapErase e.1 st.frames_found,
        frames_lost := mapErase e.1 st.frames_lost }
  else st

/-- Member function `dropLostObjects` (source lines 324-353): sweep the lost counters in
ascending id order, dropping every model at or past the limit. -/
def dropLostObjects (st : AggState) : AggState :=
  st.frames_lost.foldl dropStep st

/-- One iteration of `materializeFoundObjects` (source lines 358-381): a
model found for at least `FOUND_LIMIT = 5` frames is appended at the back
of the materialized list (the source records its list position in
`model_idx_in_list_`) and its found-counter entry is erased so it is never
appended twice. -/
def materializeStep (st : AggState) (e : Int × Int) : AggState :=
  if 5 ≤ e.2 then
    { st with
        materialized_models := st.materialized_models ++ [e.1],
        frames_found := mapErase e.1 st.frames_found }
  else st

/-- Member function `materializeFoundObjects` (source lines 355-383): sweep the found
counters in ascending id order, materializing every model at or past the
limit. -/
def materializeFoundObjects (st : AggState) : AggState :=
  st.frames_found.foldl materializeStep st

/-- Member function `copyMaterialized` (source lines 385-389): the snapshot handed to the
attached aggregators; the source copies the stored pointers, whose current
referents are the tracked models, recovered here by id lookup. -/
def copyMaterialized (st : AggState) : List ObjectModel :=
  st.materialized_models.filterMap (fun i => mapFind i st.tracked_models)

/-- Member function `updateObstacles` (source lines 398-412): the per-frame step. Returns
the new state, the observation batch as mutated by `matchToPrevious`, and
the snapshot passed to `notifyAggregators`. -/
def updateObstacles (st : AggState) (obstacles : List ObjectModel) :
    AggState × List ObjectModel × List ObjectModel :=
  let st := { st with frame_cnt := st.frame_cnt + 1 }
  let m := matchToPrevious st obstacles
  let correspondence := m.1
  let obstacles2 := m.2.2
  let st := updateLostAndFound m.2.1 correspondence
  let st := adaptTracked st correspondence obstacles2
  let st := dropLostObjects st
  let st := materializeFoundObjects st
  (st, obstacles2, copyMaterialized st)

/-- Iterated frame processing, keeping only the state. -/
def runFrames (st : AggState) (frames : List (List ObjectModel)) : AggState :=
  frames.foldl (fun s obs => (updateObstacles s obs).1) st

/-- The snapshot emitted on one frame. -/
def frameOutput (st : AggState) (obstacles : List ObjectModel) : List ObjectModel :=
  (updateObstacles st obstacles).2.2

/-! ### Derived predicates used by the statements -/

/-- The acceptance test of the matcher loop (source line 217): a tracked
entry is a candidate for a query point exactly when the squared distance of
its reference point from the query point is at most `0.05`. -/
def acceptQ (q : Coordinate) (e : Int × ObjectModel) : Prop :=
  sqDist e.2.center_point q ≤ 5 / 100

instance (q : Coordinate) (e : Int × ObjectModel) : Decidable (acceptQ q e) := by
  unfold acceptQ; infer_instance

/-- Whether a model is the composite variant (the runtime type examined by
the `dynamic_cast` on source lines 295-296). -/
def ObjectModel.isComposite : ObjectModel → Bool
  | .composite _ _ => true
  | _ => false

/-- Freshness invariant of the id counter: every tracked id was allocated
before the current value of `next_model_id_`. It holds in the initial state
and is maintained because ids are only handed out by `nextModelId`. -/
def FreshInv (st : AggState) : Prop :=
  ∀ e ∈ st.tracked_models, e.1 < st.next_model_id

instance : SMul ℚ Coordinate :=
  ⟨fun k a => ⟨k * a.x, k * a.y, k * a.z⟩⟩

/-! ### A double-precision model of the matcher arithmetic

The C++ matcher computes over `double`, where a non-finite coordinate (NaN
or an infinity) makes the computed squared distance non-finite, and where
the comparison of a non-finite squared distance (NaN or positive infinity,
since the distance is a sum of squares) against the finite threshold is
false. `DVal` models a double as either a finite rational or the marker
`none` for a non-finite value; the arithmetic operations propagate the
marker and the ordering test is false whenever a marker is involved, which
is exactly the IEEE outcome for the comparisons this loop performs. -/

abbrev DVal : Type := Option ℚ

def DVal.sub : DVal → DVal → DVal
  | some a, some b => some (a - b)
  | _, _ => none

def DVal.mul : DVal → DVal → DVal
  | some a, some b => some (a * b)
  | _, _ => none

def DVal.add : DVal → DVal → DVal
  | some a, some b => some (a + b)
  | _, _ => none

def DVal.leD : DVal → DVal → Bool
  | some a, some b => decide (a ≤ b)
  | _, _ => false

/-- A reference point whose coordinates are doubles. -/
structure DCoordinate where
  x : DVal
  y : DVal
  z : DVal

/-- All three coordinates are finite. -/
def DCoordinate.finite (c : DCoordinate) : Prop :=
  c.x ≠ none ∧ c.y ≠ none ∧ c.z ≠ none

/-- The inline squared distance of `getMatchByDistance` over doubles
(source lines 212-215). -/
def sqDistD (p query : DCoordinate) : DVal :=
  (((p.x.sub query.x).mul (p.x.sub query.x)).add
    ((p.y.sub query.y).mul (p.y.sub query.y))).add
    ((p.z.sub query.z).mul (p.z.sub query.z))

/-- The tracker state restricted to what the matcher touches, with tracked
models represented by their reference points. -/
structure DState where
  next_model_id : Int
  tracked_models : List (Int × DCoordinate)

/-- The loop body of `getMatchByDistance` over doubles (source lines
210-227). -/
def matchAccumD (query_point : DCoordinate) (acc : Bool × DVal × Int)
    (elem : Int × DCoordinate) : Bool × DVal × Int :=
  let dist := sqDistD elem.2 query_point
  if dist.leD (some (5 / 100)) then
    let min_dist := if !acc.1 then dist else acc.2.1
    if dist.leD min_dist then (true, dist, elem.1) else (true, min_dist, acc.2.2)
  else acc

/-- Member function `getMatchByDistance` over doubles (source lines 204-234). -/
def getMatchByDistanceD (st : DState) (query_point : DCoordinate) : Int × DState :=
  let r := st.tracked_models.foldl (matchAccumD query_point) (false, some 10000000000, 0)
  if r.1 then (r.2.2, st)
  else (st.next_model_id, { st with next_model_id := st.next_model_id + 1 })

/-- The scan loop of `matchToPrevious` over doubles (source lines 254-265),
restricted to the state the matcher touches. -/
def scanStepD (acc : DState × List (Int × Nat) × List (Int × Nat) × Nat)
    (new_obstacle : DCoordinate) : DState × List (Int × Nat) × List (Int × Nat) × Nat :=
  let r := getMatchByDistanceD acc.1 new_obstacle
  ⟨r.2, mapInsert r.1 acc.2.2.2 acc.2.1,
    (if (mapFind r.1 r.2.tracked_models).isNone then
      acc.2.2.1 ++ [(r.1, acc.2.2.2)]
    else acc.2.2.1),
    acc.2.2.2 + 1⟩

/-- Member function `matchToPrevious` over doubles (source lines 236-281): the scan followed
by the deferred insertion of the new models into the tracked table. -/
def matchToPreviousD (st : DState) (new_obstacles : List DCoordinate) :
    List (Int × Nat) × DState :=
  let acc := new_obstacles.foldl scanStepD ⟨st, [], [], 0⟩
  let st2 := acc.2.2.1.foldl
    (fun s e =>
      match new_obstacles.get? e.2 with
      | some obs => { s with tracked_models := mapInsert e.1 obs s.tracked_models }
      | none => s)
    acc.1
  (acc.2.1, st2)

/-! ### Concrete inputs used by the counterexamples and witnesses -/

/-- A state tracking one model near the origin (id 3), with the id counter
ahead of every tracked id. -/
def overwriteState : AggState :=
  { next_model_id := 7, tracked_models := [(3, .sphere 3 ⟨0, 0, 0⟩ 1)],
    frames_found := [(3, 1)], frames_lost := [(3, 0)],
    materialized_models := [], frame_cnt := 1 }

/-- Two observations in one batch, both within the acceptance threshold of
the single model of `overwriteState`; the first is strictly closer. -/
def overwriteObs : List ObjectModel :=
  [.sphere (-1) ⟨1/10, 0, 0⟩ 1, .sphere (-1) ⟨2/10, 0, 0⟩ 1]

/-- A state tracking two models whose reference points are at exactly the
same squared distance from the origin. -/
def tieState : AggState :=
  { next_model_id := 7,
    tracked_models := [(3, .sphere 3 ⟨1/10, 0, 0⟩ 1), (5, .sphere 5 ⟨-1/10, 0, 0⟩ 1)],
    frames_found := [], frames_lost := [], materialized_models := [],
    frame_cnt := 0 }

/-- The repeated observation batch of scenario A: one sphere at the origin. -/
def scenarioAObs : List ObjectModel := [.sphere (-1) ⟨0, 0, 0⟩ 1]

/-- The state after processing `n` frames of scenario A from a fresh
tracker. -/
def scenarioARun (n : Nat) : AggState :=
  runFrames initState (List.replicate n scenarioAObs)

/-! ### Helper lemmas: coordinates -/

theorem Coordinate.add_def (a b : Coordinate) :
    a + b = ⟨a.x + b.x, a.y + b.y, a.z + b.z⟩ := rfl

theorem Coordinate.sub_def (a b : Coordinate) :
    a - b = ⟨a.x - b.x, a.y - b.y, a.z - b.z⟩ := rfl

theorem Coordinate.div_def (a : Coordinate) (k : ℚ) :
    a / k = ⟨a.x / k, a.y / k, a.z / k⟩ := rfl

theorem Coordinate.smul_def (k : ℚ) (a : Coordinate) :
    k • a = ⟨k * a.x, k * a.y, k * a.z⟩ := rfl

theorem Coordinate.ext_xyz {a b : Coordinate}
    (hx : a.x = b.x) (hy : a.y = b.y) (hz : a.z = b.z) : a = b := by
  cases a; cases b; simp_all

/-! ### Helper lemmas: the map embedding -/

theorem mapFind_eq_none_of_forall {α : Type} {k : Int} {l : List (Int × α)}
    (h : ∀ e ∈ l, e.1 ≠ k) : mapFind k l = none := by
  induction l with
  | nil => simp [mapFind]
  | cons e rest ih =>
    simp [mapFind, h e (by simp), ih (fun f hf => h f (by simp [hf]))]

theorem mapFind_mapInsert_self {α : Type} (k : Int) (v : α) (l : List (Int × α)) :
    mapFind k (mapInsert k v l) = some v := by
  induction l with
  | nil => simp [mapInsert, mapFind]
  | cons e rest ih =>
    by_cases h1 : k < e.1
    · simp [mapInsert, h1, mapFind]
    · by_cases h2 : k = e.1
      · simp [mapInsert, h1, h2, mapFind]
      · have h2s : ¬ (e.1 = k) := fun hh => h2 hh.symm
        simp [mapInsert, h1, h2, mapFind, h2s, ih]

theorem mapFind_mapInsert_ne {α : Type} (k k' : Int) (v : α) (l : List (Int × α))
    (h : k ≠ k') : mapFind k' (mapInsert k v l) = mapFind k' l := by
  induction l with
  | nil => simp [mapInsert, mapFind, h]
  | cons e rest ih =>
    by_cases h1 : k < e.1
    · simp [mapInsert, h1, mapFind, h]
    · by_cases h2 : k = e.1
      · subst h2
        simp [mapInsert, h1, mapFind, h]
      · simp [mapInsert, h1, h2, mapFind, ih]

theorem mapFind_mapErase_ne {α : Type} (k k' : Int) (l : List (Int × α))
    (h : k ≠ k') : mapFind k' (mapErase k l) = mapFind k' l := by
  induction l with
  | nil => simp [mapErase]
  | cons e rest ih =>
    by_cases h1 : e.1 = k
    · have hne : ¬ (e.1 = k') := by rw [h1]; exact h
      simp [mapErase, h1, mapFind, hne, h]
    · simp [mapErase, h1, mapFind, ih]

theorem mapFind_mapErase_self {α : Type} (k : Int) (l : List (Int × α))
    (h : MapWF l) : mapFind k (mapErase k l) = none := by
  induction l with
  | nil => simp [mapErase, mapFind]
  | cons e rest ih =>
    rw [MapWF, List.pairwise_cons] at h
    by_cases h1 : e.1 = k
    · rw [mapErase, if_pos h1]
      refine mapFind_eq_none_of_forall (fun f hf => ?_)
      have := h.1 f hf
      rw [h1] at this
      exact ne_of_gt this
    · simp [mapErase, h1, mapFind, ih h.2]

theorem mapFind_isSome_of_mem {α : Type} {k : Int} {v : α} {l : List (Int × α)}
    (h : (k, v) ∈ l) : (mapFind k l).isSome := by
  induction l with
  | nil => simp at h
  | cons e rest ih =>
    rcases List.mem_cons.mp h with h | h
    · simp [mapFind, ← h]
    · by_cases h1 : e.1 = k
      · simp [mapFind, h1]
      · simp [mapFind, h1, ih h]

theorem mapFind_eq_of_mem {α : Type} {k : Int} {v : α} {l : List (Int × α)}
    (hwf : MapWF l) (h : (k, v) ∈ l) : mapFind k l = some v := by
  induction l with
  | nil => simp at h
  | cons e rest ih =>
    rw [MapWF, List.pairwise_cons] at hwf
    rcases List.mem_cons.mp h with h | h
    · simp [mapFind, ← h]
    · have hk : e.1 < k := hwf.1 (k, v) h
      have hne : ¬ (e.1 = k) := by omega
      simp [mapFind, hne, ih hwf.2 h]

theorem MapWF_mem_unique {α : Type} {k : Int} {v v' : α} {l : List (Int × α)}
    (hwf : MapWF l) (h : (k, v) ∈ l) (h' : (k, v') ∈ l) : v = v' := by
  induction l with
  | nil => simp at h
  | cons e rest ih =>
    rw [MapWF, List.pairwise_cons] at hwf
    rcases List.mem_cons.mp h with h | h <;> rcases List.mem_cons.mp h' with h' | h'
    · exact (Prod.ext_iff.mp (h.trans h'.symm)).2
    · exfalso
      have hlt := hwf.1 (k, v') h'
      have he : e.1 = k := by rw [← h]
      omega
    · exfalso
      have hlt := hwf.1 (k, v) h
      have he : e.1 = k := by rw [← h']
      omega
    · exact ih hwf.2 h h'

theorem mapFind_none_mapErase {α : Type} (k i : Int) (l : List (Int × α))
    (h : mapFind i l = none) : mapFind i (mapErase k l) = none := by
  induction l with
  | nil => simp [mapErase, mapFind]
  | cons e rest ih =>
    by_cases h1 : e.1 = i
    · simp [mapFind, h1] at h
    · rw [mapFind, if_neg h1] at h
      by_cases h2 : e.1 = k
      · simp [mapErase, h2, h]
      · simp [mapErase, h2, mapFind, h1, ih h]

theorem mem_mapInsert {α : Type} {k : Int} {v : α} {l : List (Int × α)} {e : Int × α}
    (h : e ∈ mapInsert k v l) : e = (k, v) ∨ e ∈ l := by
  induction l with
  | nil =>
    simp [mapInsert] at h
    simp [h]
  | cons f rest ih =>
    by_cases h1 : k < f.1
    · rw [mapInsert, if_pos h1] at h
      rcases List.mem_cons.mp h with h | h
      · exact Or.inl h
      · exact Or.inr h
    · by_cases h2 : k = f.1
      · rw [mapInsert, if_neg h1, if_pos h2] at h
        rcases List.mem_cons.mp h with h | h
        · exact Or.inl h
        · exact Or.inr (by simp [h])
      · rw [mapInsert, if_neg h1, if_neg h2] at h
        rcases List.mem_cons.mp h with h | h
        · exact Or.inr (by simp [h])
        · rcases ih h with h | h
          · exact Or.inl h
          · exact Or.inr (by simp [h])

/-! ### Helper lemmas: the matcher loop -/

theorem matchAccum_not_accept (q : Coordinate) (acc : Bool × ℚ × Int)
    (e : Int × ObjectModel) (h : ¬ acceptQ q e) : matchAccum q acc e = acc := by
  unfold acceptQ at h
  simp [matchAccum, h]

theorem matchAccum_first (q : Coordinate) (md : ℚ) (i0 : Int)
    (e : Int × ObjectModel) (h : acceptQ q e) :
    matchAccum q (false, md, i0) e = (true, sqDist e.2.center_point q, e.1) := by
  unfold acceptQ at h
  simp [matchAccum, h]

theorem matchAccum_le (q : Coordinate) (md : ℚ) (i0 : Int)
    (e : Int × ObjectModel) (h : acceptQ q e)
    (hle : sqDist e.2.center_point q ≤ md) :
    matchAccum q (true, md, i0) e = (true, sqDist e.2.center_point q, e.1) := by
  unfold acceptQ at h
  simp [matchAccum, h, hle]

theorem matchAccum_gt (q : Coordinate) (md : ℚ) (i0 : Int)
    (e : Int × ObjectModel) (h : acceptQ q e)
    (hgt : md < sqDist e.2.center_point q) :
    matchAccum q (true, md, i0) e = (true, md, i0) := by
  unfold acceptQ at h
  simp [matchAccum, h, not_le.mpr hgt]

theorem matchFold_no_accept (q : Coordinate) (l : List (Int × ObjectModel))
    (h : ∀ e ∈ l, ¬ acceptQ q e) :
    l.foldl (matchAccum q) (false, 10000000000, 0) = (false, 10000000000, 0) := by
  induction l with
  | nil => rfl
  | cons e rest ih =>
    rw [List.foldl_cons, matchAccum_not_accept q _ e (h e (by simp))]
    exact ih (fun f hf => h f (by simp [hf]))

theorem matchFold_accept (q : Coordinate) (l : List (Int × ObjectModel))
    (h : ∃ e ∈ l, acceptQ q e) :
    ∃ pre e post, l = pre ++ e :: post ∧ acceptQ q e ∧
      l.foldl (matchAccum q) (false, 10000000000, 0) =
        (true, sqDist e.2.center_point q, e.1) ∧
      (∀ f ∈ l, acceptQ q f → sqDist e.2.center_point q ≤ sqDist f.2.center_point q) ∧
      (∀ f ∈ post, acceptQ q f → sqDist e.2.center_point q < sqDist f.2.center_point q) := by
  induction l using List.reverseRecOn with
  | nil => simp at h
  | append_singleton l a ih =>
    by_cases ha : acceptQ q a
    · by_cases hl : ∃ e ∈ l, acceptQ q e
      · obtain ⟨pre, e, post, hsplit, he, hfold, hmin, hpost⟩ := ih hl
        by_cases hle : sqDist a.2.center_point q ≤ sqDist e.2.center_point q
        · refine ⟨l, a, [], by simp, ha, ?_, ?_, by simp⟩
          · rw [List.foldl_append, hfold, List.foldl_cons, List.foldl_nil,
              matchAccum_le q _ _ a ha hle]
          · intro f hf hfacc
            rcases List.mem_append.mp hf with hf | hf
            · exact le_trans hle (hmin f hf hfacc)
            · rw [List.mem_singleton.mp hf]
        · push_neg at hle
          refine ⟨pre, e, post ++ [a], by rw [hsplit]; simp, he, ?_, ?_, ?_⟩
          · rw [List.foldl_append, hfold, List.foldl_cons, List.foldl_nil,
              matchAccum_gt q _ _ a ha hle]
          · intro f hf hfacc
            rcases List.mem_append.mp hf with hf | hf
            · exact hmin f hf hfacc
            · rw [List.mem_singleton.mp hf]
              exact le_of_lt hle
          · intro f hf hfacc
            rcases List.mem_append.mp hf with hf | hf
            · exact hpost f hf hfacc
            · rw [List.mem_singleton.mp hf]
              exact hle
      · push_neg at hl
        refine ⟨l, a, [], by simp, ha, ?_, ?_, by simp⟩
        · rw [List.foldl_append, matchFold_no_accept q l hl, List.foldl_cons,
            List.foldl_nil, matchAccum_first q _ _ a ha]
        · intro f hf hfacc
          rcases List.mem_append.mp hf with hf | hf
          · exact absurd hfacc (hl f hf)
          · rw [List.mem_singleton.mp hf]
    · have hl : ∃ e ∈ l, acceptQ q e := by
        obtain ⟨e, he, hacc⟩ := h
        rcases List.mem_append.mp he with he | he
        · exact ⟨e, he, hacc⟩
        · rw [List.mem_singleton.mp he] at hacc
          exact absurd hacc ha
      obtain ⟨pre, e, post, hsplit, he, hfold, hmin, hpost⟩ := ih hl
      refine ⟨pre, e, post ++ [a], by rw [hsplit]; simp, he, ?_, ?_, ?_⟩
      · rw [List.foldl_append, hfold, List.foldl_cons, List.foldl_nil,
          matchAccum_not_accept q _ a ha]
      · intro f hf hfacc
        rcases List.mem_append.mp hf with hf | hf
        · exact hmin f hf hfacc
        · rw [List.mem_singleton.mp hf] at hfacc
          exact absurd hfacc ha
      · intro f hf hfacc
        rcases List.mem_append.mp hf with hf | hf
        · exact hpost f hf hfacc
        · rw [List.mem_singleton.mp hf] at hfacc
          exact absurd hfacc ha

/-- When no tracked model is accepted, the matcher hands out a fresh id. -/
theorem getMatch_no_accept (st : AggState) (m : ObjectModel)
    (h : ∀ e ∈ st.tracked_models, ¬ acceptQ m.center_point e) :
    getMatchByDistance st m = nextModelId st := by
  simp only [getMatchByDistance]
  rw [matchFold_no_accept _ _ h]
  rfl

/-- When some tracked model is accepted, the matcher leaves the state alone
and returns the id of an accepted entry of minimal squared distance; every
accepted entry after the returned one is strictly farther (so on an exact
tie the last minimal entry in iteration order wins). -/
theorem getMatch_accept (st : AggState) (m : ObjectModel)
    (h : ∃ e ∈ st.tracked_models, acceptQ m.center_point e) :
    (getMatchByDistance st m).2 = st ∧
    ∃ pre e post, st.tracked_models = pre ++ e :: post ∧ acceptQ m.center_point e ∧
      (getMatchByDistance st m).1 = e.1 ∧
      (∀ f ∈ st.tracked_models, acceptQ m.center_point f →
        sqDist e.2.center_point m.center_point ≤ sqDist f.2.center_point m.center_point) ∧
      (∀ f ∈ post, acceptQ m.center_point f →
        sqDist e.2.center_point m.center_point < sqDist f.2.center_point m.center_point) := by
  obtain ⟨pre, e, post, hsplit, he, hfold, hmin, hpost⟩ := matchFold_accept _ _ h
  constructor
  · simp only [getMatchByDistance]
    rw [hfold]
    rfl
  · refine ⟨pre, e, post, hsplit, he, ?_, hmin, hpost⟩
    simp only [getMatchByDistance]
    rw [hfold]
    rfl

/-- The id returned by a successful match is a tracked id, and the state is
returned unchanged. -/
theorem getMatch_found_mem (st : AggState) (m : ObjectModel)
    (h : ∃ e ∈ st.tracked_models, acceptQ m.center_point e) :
    ((mapFind (getMatchByDistance st m).1 st.tracked_models).isSome ∧
      (getMatchByDistance st m).2 = st) := by
  obtain ⟨hst, pre, e, post, hsplit, he, hid, hmin, hpost⟩ := getMatch_accept st m h
  obtain ⟨eid, em⟩ := e
  refine ⟨?_, hst⟩
  rw [hid]
  exact mapFind_isSome_of_mem (v := em)
    (by rw [hsplit]; exact List.mem_append.mpr (Or.inr (by simp)))

/-- C3 counterexample: in `tieState` the two tracked models (ids 3 and 5)
are both candidates for the origin query at exactly the same squared
distance, yet the matcher returns id 5 — the last-seen candidate — so the
first-seen tie-break stated by the claim does not hold. -/
theorem C3_counterexample :
    acceptQ (ObjectModel.sphere (-1) ⟨0, 0, 0⟩ 1).center_point
      (3, ObjectModel.sphere 3 ⟨1/10, 0, 0⟩ 1) ∧
    acceptQ (ObjectModel.sphere (-1) ⟨0, 0, 0⟩ 1).center_point
      (5, ObjectModel.sphere 5 ⟨-1/10, 0, 0⟩ 1) ∧
    sqDist (ObjectModel.sphere 3 ⟨1/10, 0, 0⟩ 1).center_point
        (ObjectModel.sphere (-1) ⟨0, 0, 0⟩ 1).center_point =
      sqDist (ObjectModel.sphere 5 ⟨-1/10, 0, 0⟩ 1).center_point
        (ObjectModel.sphere (-1) ⟨0, 0, 0⟩ 1).center_point ∧
    tieState.tracked_models =
      [(3, ObjectModel.sphere 3 ⟨1/10, 0, 0⟩ 1), (5, ObjectModel.sphere 5 ⟨-1/10, 0, 0⟩ 1)] ∧
    (getMatchByDistance tieState (ObjectModel.sphere (-1) ⟨0, 0, 0⟩ 1)).1 = 5 := by
  refine ⟨?_, ?_, ?_, rfl, ?_⟩ <;>
    norm_num [acceptQ, sqDist, ObjectModel.center_point, tieState,
      getMatchByDistance, matchAccum, nextModelId]

/-- C3 (amended): for every observation the matcher treats a tracked entry
as a candidate exactly when its squared distance is at most 0.05; with no
candidate it returns a fresh id from the monotonic counter, and otherwise
it returns, with the state unchanged, the id of a minimum-distance
candidate — on an exact tie the LAST-seen candidate in ascending-id order
wins (every candidate after the returned one is strictly farther). -/
theorem C3_matchByDistance_spec (st : AggState) (m : ObjectModel) :
    ((∀ e ∈ st.tracked_models, ¬ acceptQ m.center_point e) →
      getMatchByDistance st m =
        (st.next_model_id, { st with next_model_id := st.next_model_id + 1 })) ∧
    ((∃ e ∈ st.tracked_models, acceptQ m.center_point e) →
      (getMatchByDistance st m).2 = st ∧
      ∃ pre e post, st.tracked_models = pre ++ e :: post ∧ acceptQ m.center_point e ∧
        (getMatchByDistance st m).1 = e.1 ∧
        (∀ f ∈ st.tracked_models, acceptQ m.center_point f →
          sqDist e.2.center_point m.center_point ≤ sqDist f.2.center_point m.center_point) ∧
        (∀ f ∈ post, acceptQ m.center_point f →
          sqDist e.2.center_point m.center_point < sqDist f.2.center_point m.center_point)) := by
  constructor
  · intro h
    rw [getMatch_no_accept st m h]
    rfl
  · intro h
    exact getMatch_accept st m h

/-- C1 counterexample: in `overwriteState` both observations of
`overwriteObs` are candidates of the single tracked model (id 3), the first
being strictly closer; `matchToPrevious` ends with the correspondence entry
of id 3 silently overwritten to index 1 (the farther observation), and the
closer observation neither stays matched nor obtains a fresh identity (the
id counter is unchanged). -/
theorem C1_counterexample :
    acceptQ (ObjectModel.sphere (-1) ⟨1/10, 0, 0⟩ 1).center_point
      (3, ObjectModel.sphere 3 ⟨0, 0, 0⟩ 1) ∧
    acceptQ (ObjectModel.sphere (-1) ⟨2/10, 0, 0⟩ 1).center_point
      (3, ObjectModel.sphere 3 ⟨0, 0, 0⟩ 1) ∧
    sqDist (ObjectModel.sphere (-1) ⟨1/10, 0, 0⟩ 1).center_point
        (ObjectModel.sphere 3 ⟨0, 0, 0⟩ 1).center_point <
      sqDist (ObjectModel.sphere (-1) ⟨2/10, 0, 0⟩ 1).center_point
        (ObjectModel.sphere 3 ⟨0, 0, 0⟩ 1).center_point ∧
    (matchToPrevious overwriteState overwriteObs).1 = [(3, 1)] ∧
    (matchToPrevious overwriteState overwriteObs).2.1.next_model_id =
      overwriteState.next_model_id := by
  refine ⟨?_, ?_, ?_, ?_, ?_⟩ <;>
    norm_num [acceptQ, sqDist, ObjectModel.center_point, overwriteState, overwriteObs,
      matchToPrevious, scanStep, getMatchByDistance, matchAccum, nextModelId,
      mapInsert, mapFind, insertNewTracked]


/-- C1 (amended): when two observations of one frame both best-match the
same already-tracked identity, the scan loop silently overwrites the
correspondence entry, so the LATER observation in batch order stays matched;
the earlier one is simply dropped — it is not matched, gets no fresh
identity, and neither the tracked state nor the batch is changed. -/
theorem C1_same_target_overwrite (st : AggState) (o0 o1 : ObjectModel) (mid : Int)
    (h0 : getMatchByDistance st o0 = (mid, st))
    (h1 : getMatchByDistance st o1 = (mid, st))
    (hmem : (mapFind mid st.tracked_models).isSome) :
    matchToPrevious st [o0, o1] = ([(mid, 1)], st, [o0, o1]) := by
  obtain ⟨v, hv⟩ := Option.isSome_iff_exists.mp hmem
  unfold matchToPrevious
  simp only [List.foldl_cons, List.foldl_nil, scanStep, h0, h1, hv, mapInsert,
    Option.isNone_some, Bool.false_eq_true, if_false]
  norm_num [mapInsert]

/-- Witness for `C1_same_target_overwrite` at `overwriteState` and
`overwriteObs`. -/
theorem C1_same_target_overwrite_witness :
    matchToPrevious overwriteState
        [ObjectModel.sphere (-1) ⟨1/10, 0, 0⟩ 1, ObjectModel.sphere (-1) ⟨2/10, 0, 0⟩ 1] =
      ([(3, 1)], overwriteState,
        [ObjectModel.sphere (-1) ⟨1/10, 0, 0⟩ 1, ObjectModel.sphere (-1) ⟨2/10, 0, 0⟩ 1]) :=
  C1_same_target_overwrite overwriteState _ _ 3
    (by norm_num [getMatchByDistance, matchAccum, sqDist, ObjectModel.center_point,
      overwriteState, nextModelId])
    (by norm_num [getMatchByDistance, matchAccum, sqDist, ObjectModel.center_point,
      overwriteState, nextModelId])
    (by norm_num [overwriteState, mapFind])


/-! ### Helper lemmas: the scan loop of matchToPrevious -/

theorem getMatch_st_fields (st : AggState) (m : ObjectModel) :
    (getMatchByDistance st m).2.tracked_models = st.tracked_models ∧
    (getMatchByDistance st m).2.frames_found = st.frames_found ∧
    (getMatchByDistance st m).2.frames_lost = st.frames_lost ∧
    (getMatchByDistance st m).2.materialized_models = st.materialized_models ∧
    (getMatchByDistance st m).2.frame_cnt = st.frame_cnt ∧
    st.next_model_id ≤ (getMatchByDistance st m).2.next_model_id := by
  simp only [getMatchByDistance, nextModelId]
  split
  · exact ⟨rfl, rfl, rfl, rfl, rfl, le_refl _⟩
  · refine ⟨rfl, rfl, rfl, rfl, rfl, ?_⟩
    simp

theorem getMatch_cases (st : AggState) (m : ObjectModel) :
    ((mapFind (getMatchByDistance st m).1 st.tracked_models).isSome ∧
      (getMatchByDistance st m).2 = st) ∨
    getMatchByDistance st m =
      (st.next_model_id, { st with next_model_id := st.next_model_id + 1 }) := by
  by_cases h : ∃ e ∈ st.tracked_models, acceptQ m.center_point e
  · exact Or.inl (getMatch_found_mem st m h)
  · push_neg at h
    refine Or.inr ?_
    rw [getMatch_no_accept st m h]
    rfl

theorem scanFold_st (obs : List ObjectModel) (acc : ScanAcc) :
    (obs.foldl scanStep acc).st.tracked_models = acc.st.tracked_models ∧
    (obs.foldl scanStep acc).st.frames_found = acc.st.frames_found ∧
    (obs.foldl scanStep acc).st.frames_lost = acc.st.frames_lost ∧
    (obs.foldl scanStep acc).st.materialized_models = acc.st.materialized_models ∧
    (obs.foldl scanStep acc).st.frame_cnt = acc.st.frame_cnt ∧
    acc.st.next_model_id ≤ (obs.foldl scanStep acc).st.next_model_id := by
  induction obs generalizing acc with
  | nil => exact ⟨rfl, rfl, rfl, rfl, rfl, le_refl _⟩
  | cons o rest ih =>
    rw [List.foldl_cons]
    obtain ⟨h1, h2, h3, h4, h5, h6⟩ := ih (scanStep acc o)
    obtain ⟨g1, g2, g3, g4, g5, g6⟩ := getMatch_st_fields acc.st o
    have hst : (scanStep acc o).st = (getMatchByDistance acc.st o).2 := rfl
    rw [hst] at h1 h2 h3 h4 h5 h6
    exact ⟨h1.trans g1, h2.trans g2, h3.trans g3, h4.trans g4, h5.trans g5,
      le_trans g6 h6⟩

theorem scanFold_all_found (obs : List ObjectModel) (acc : ScanAcc)
    (h : ∀ o ∈ obs, ∃ e ∈ acc.st.tracked_models, acceptQ o.center_point e)
    (hnif : acc.new_in_frame = []) :
    (obs.foldl scanStep acc).st = acc.st ∧
    (obs.foldl scanStep acc).new_in_frame = [] := by
  induction obs generalizing acc with
  | nil => exact ⟨rfl, hnif⟩
  | cons o rest ih =>
    rw [List.foldl_cons]
    obtain ⟨hsome, hst⟩ := getMatch_found_mem acc.st o (h o (by simp))
    have hstep_st : (scanStep acc o).st = acc.st := by
      simp only [scanStep, hst]
    have hstep_nif : (scanStep acc o).new_in_frame = [] := by
      simp only [scanStep, hst]
      rw [if_neg, hnif]
      simp [Option.isNone_iff_eq_none]
      obtain ⟨a, ha⟩ := Option.isSome_iff_exists.mp hsome
      simp [ha]
    have := ih (scanStep acc o)
      (by rw [hstep_st]; exact fun o' ho' => h o' (by simp [ho']))
      hstep_nif
    rw [hstep_st] at this
    exact this

theorem scanFold_corr (obs : List ObjectModel) (acc : ScanAcc) (st0 : AggState)
    (htr : acc.st.tracked_models = st0.tracked_models)
    (hn : st0.next_model_id ≤ acc.st.next_model_id)
    (hinv : ∀ e ∈ acc.correspondence,
      (mapFind e.1 st0.tracked_models).isSome ∨
      (st0.next_model_id ≤ e.1 ∧ e.1 < acc.st.next_model_id)) :
    ∀ e ∈ (obs.foldl scanStep acc).correspondence,
      (mapFind e.1 st0.tracked_models).isSome ∨
      (st0.next_model_id ≤ e.1 ∧ e.1 < (obs.foldl scanStep acc).st.next_model_id) := by
  induction obs generalizing acc with
  | nil => exact hinv
  | cons o rest ih =>
    rw [List.foldl_cons]
    have hstep_tr : (scanStep acc o).st.tracked_models = acc.st.tracked_models :=
      (getMatch_st_fields acc.st o).1
    have hstep_next : acc.st.next_model_id ≤ (scanStep acc o).st.next_model_id :=
      (getMatch_st_fields acc.st o).2.2.2.2.2
    refine ih (scanStep acc o) (hstep_tr.trans htr) (le_trans hn hstep_next) ?_
    intro e he
    have hcorr : (scanStep acc o).correspondence =
        mapInsert (getMatchByDistance acc.st o).1 acc.i acc.correspondence := rfl
    rw [hcorr] at he
    rcases mem_mapInsert he with he | he
    · rcases getMatch_cases acc.st o with ⟨hsome, _⟩ | hfresh
      · rw [htr] at hsome
        exact Or.inl (by rw [he]; exact hsome)
      · refine Or.inr ?_
        have h1 : e.1 = acc.st.next_model_id := by rw [he, hfresh]
        have h2 : (scanStep acc o).st.next_model_id = acc.st.next_model_id + 1 := by
          show (getMatchByDistance acc.st o).2.next_model_id = _
          rw [hfresh]
        rw [h1, h2]
        omega
    · rcases hinv e he with h | h
      · exact Or.inl h
      · exact Or.inr ⟨h.1, lt_of_lt_of_le h.2 hstep_next⟩


/-- Matching one fresh observation: it receives the next id, has that id
written into it by `set_id`, and is itself inserted into the tracked table
after the scan. -/
theorem matchToPrevious_fresh_one (st : AggState) (o : ObjectModel)
    (h : ∀ e ∈ st.tracked_models, ¬ acceptQ o.center_point e)
    (hfresh : FreshInv st) :
    matchToPrevious st [o] =
      ([(st.next_model_id, 0)],
       { st with
          next_model_id := st.next_model_id + 1,
          tracked_models :=
            mapInsert st.next_model_id (o.set_id st.next_model_id) st.tracked_models,
          frames_lost := mapInsert st.next_model_id 0 st.frames_lost,
          frames_found := mapInsert st.next_model_id 0 st.frames_found },
       [o.set_id st.next_model_id]) := by
  have hnone : mapFind st.next_model_id st.tracked_models = none :=
    mapFind_eq_none_of_forall (fun e he => ne_of_lt (hfresh e he))
  unfold matchToPrevious
  rw [List.foldl_cons, List.foldl_nil]
  have s1 : scanStep ⟨st, [], [], 0⟩ o =
      ⟨{ st with next_model_id := st.next_model_id + 1 },
        [(st.next_model_id, 0)], [(st.next_model_id, 0)], 1⟩ := by
    simp [scanStep, getMatch_no_accept st o h, nextModelId, hnone, mapInsert]
  rw [s1]
  simp [insertNewTracked, List.get?]

/-- Matching two fresh observations in one batch: because insertion into
the tracked table is deferred to after the scan, the second observation is
matched against the same pre-frame table as the first and receives the next
distinct id; both are inserted afterwards. -/
theorem matchToPrevious_fresh_two (st : AggState) (o0 o1 : ObjectModel)
    (h0 : ∀ e ∈ st.tracked_models, ¬ acceptQ o0.center_point e)
    (h1 : ∀ e ∈ st.tracked_models, ¬ acceptQ o1.center_point e)
    (hfresh : FreshInv st) :
    (matchToPrevious st [o0, o1]).1 =
      [(st.next_model_id, 0), (st.next_model_id + 1, 1)] ∧
    mapFind st.next_model_id (matchToPrevious st [o0, o1]).2.1.tracked_models =
      some (o0.set_id st.next_model_id) ∧
    mapFind (st.next_model_id + 1) (matchToPrevious st [o0, o1]).2.1.tracked_models =
      some (o1.set_id (st.next_model_id + 1)) ∧
    (matchToPrevious st [o0, o1]).2.2 =
      [o0.set_id st.next_model_id, o1.set_id (st.next_model_id + 1)] := by
  have hnone0 : mapFind st.next_model_id st.tracked_models = none :=
    mapFind_eq_none_of_forall (fun e he => ne_of_lt (hfresh e he))
  have hnone1 : mapFind (st.next_model_id + 1) st.tracked_models = none :=
    mapFind_eq_none_of_forall (fun e he => by have := hfresh e he; omega)
  have c1 : ¬ (st.next_model_id + 1 < st.next_model_id) := by omega
  have c2 : ¬ (st.next_model_id + 1 = st.next_model_id) := by omega
  have hrun : matchToPrevious st [o0, o1] =
      ([(st.next_model_id, 0), (st.next_model_id + 1, 1)],
       { st with
          next_model_id := st.next_model_id + 2,
          tracked_models :=
            mapInsert (st.next_model_id + 1) (o1.set_id (st.next_model_id + 1))
              (mapInsert st.next_model_id (o0.set_id st.next_model_id) st.tracked_models),
          frames_lost :=
            mapInsert (st.next_model_id + 1) 0
              (mapInsert st.next_model_id 0 st.frames_lost),
          frames_found :=
            mapInsert (st.next_model_id + 1) 0
              (mapInsert st.next_model_id 0 st.frames_found) },
       [o0.set_id st.next_model_id, o1.set_id (st.next_model_id + 1)]) := by
    unfold matchToPrevious
    rw [List.foldl_cons, List.foldl_cons, List.foldl_nil]
    have s1 : scanStep ⟨st, [], [], 0⟩ o0 =
        ⟨{ st with next_model_id := st.next_model_id + 1 },
          [(st.next_model_id, 0)], [(st.next_model_id, 0)], 1⟩ := by
      simp [scanStep, getMatch_no_accept st o0 h0, nextModelId, hnone0, mapInsert]
    rw [s1]
    have s2 : scanStep
        ⟨{ st with next_model_id := st.next_model_id + 1 },
          [(st.next_model_id, 0)], [(st.next_model_id, 0)], 1⟩ o1 =
        ⟨{ st with next_model_id := st.next_model_id + 1 + 1 },
          [(st.next_model_id, 0), (st.next_model_id + 1, 1)],
          [(st.next_model_id, 0), (st.next_model_id + 1, 1)], 2⟩ := by
      simp [scanStep,
        getMatch_no_accept { st with next_model_id := st.next_model_id + 1 } o1 h1,
        nextModelId, hnone1, mapInsert, c1, c2]
    rw [s2]
    have h12 : st.next_model_id + 1 + 1 = st.next_model_id + 2 := by omega
    simp [insertNewTracked, List.get?, List.set, h12]
  rw [hrun]
  refine ⟨rfl, ?_, ?_, rfl⟩
  · rw [mapFind_mapInsert_ne _ _ _ _ (by omega), mapFind_mapInsert_self]
  · rw [mapFind_mapInsert_self]

/-- C2: the scan phase of `matchToPrevious` never touches the tracked-object
table (insertion of the new ids is deferred until after the whole batch is
scanned), every correspondence id is either a previously tracked id or a
freshly allocated one (at or above the pre-frame counter), and two
observations that are each rejected by every previously tracked model are
allocated the two next distinct identities and inserted separately — they
never match each other. -/
theorem C2_deferred_insertion (st : AggState) (obs : List ObjectModel) :
    ((obs.foldl scanStep ⟨st, [], [], 0⟩).st.tracked_models = st.tracked_models) ∧
    (∀ e ∈ (matchToPrevious st obs).1,
      (mapFind e.1 st.tracked_models).isSome ∨ st.next_model_id ≤ e.1) ∧
    (∀ o0 o1 : ObjectModel,
      (∀ e ∈ st.tracked_models, ¬ acceptQ o0.center_point e) →
      (∀ e ∈ st.tracked_models, ¬ acceptQ o1.center_point e) →
      FreshInv st →
      (matchToPrevious st [o0, o1]).1 =
        [(st.next_model_id, 0), (st.next_model_id + 1, 1)] ∧
      st.next_model_id ≠ st.next_model_id + 1 ∧
      mapFind st.next_model_id (matchToPrevious st [o0, o1]).2.1.tracked_models =
        some (o0.set_id st.next_model_id) ∧
      mapFind (st.next_model_id + 1) (matchToPrevious st [o0, o1]).2.1.tracked_models =
        some (o1.set_id (st.next_model_id + 1))) := by
  refine ⟨(scanFold_st obs ⟨st, [], [], 0⟩).1, ?_, ?_⟩
  · intro e he
    have : (matchToPrevious st obs).1 = (obs.foldl scanStep ⟨st, [], [], 0⟩).correspondence := rfl
    rw [this] at he
    rcases scanFold_corr obs ⟨st, [], [], 0⟩ st rfl (le_refl _) (by simp) e he with h | h
    · exact Or.inl h
    · exact Or.inr h.1
  · intro o0 o1 h0 h1 hfresh
    obtain ⟨hc, ht0, ht1, _⟩ := matchToPrevious_fresh_two st o0 o1 h0 h1 hfresh
    exact ⟨hc, by omega, ht0, ht1⟩

/-- C10 counterexample: matching a single fresh observation mutates it — the
fresh identity 0 is written into it by `set_id`, so the returned batch
differs from the input batch — and the tracker retains it: the very
observation (with its new id) is the model stored in the tracked table. -/
theorem C10_counterexample :
    (matchToPrevious initState [ObjectModel.sphere (-1) ⟨0, 0, 0⟩ 1]).2.2 =
      [ObjectModel.sphere 0 ⟨0, 0, 0⟩ 1] ∧
    (matchToPrevious initState [ObjectModel.sphere (-1) ⟨0, 0, 0⟩ 1]).2.2 ≠
      [ObjectModel.sphere (-1) ⟨0, 0, 0⟩ 1] ∧
    mapFind 0 (matchToPrevious initState [ObjectModel.sphere (-1) ⟨0, 0, 0⟩ 1]).2.1.tracked_models =
      some (ObjectModel.sphere 0 ⟨0, 0, 0⟩ 1) := by
  refine ⟨?_, ?_, ?_⟩ <;>
    norm_num [matchToPrevious, scanStep, getMatchByDistance, matchAccum, nextModelId,
      initState, mapInsert, mapFind, insertNewTracked, ObjectModel.set_id]

/-- C10 (amended): an observation that matches a previously tracked identity
is neither retained nor mutated — when every observation of the batch has a
tracked candidate, the matching step returns the state and the batch
unchanged. But an observation that starts a new track IS mutated (its fresh
identity is written into it by `set_id`) and IS retained: the tracker stores
the observation itself as the tracked model of the new identity. -/
theorem C10_ephemeral_only_when_matched :
    (∀ (st : AggState) (obs : List ObjectModel),
      (∀ o ∈ obs, ∃ e ∈ st.tracked_models, acceptQ o.center_point e) →
      (matchToPrevious st obs).2.1 = st ∧ (matchToPrevious st obs).2.2 = obs) ∧
    (∀ (st : AggState) (o : ObjectModel),
      (∀ e ∈ st.tracked_models, ¬ acceptQ o.center_point e) →
      FreshInv st →
      (matchToPrevious st [o]).2.2 = [o.set_id st.next_model_id] ∧
      mapFind st.next_model_id (matchToPrevious st [o]).2.1.tracked_models =
        some (o.set_id st.next_model_id)) := by
  constructor
  · intro st obs h
    obtain ⟨hst, hnif⟩ := scanFold_all_found obs ⟨st, [], [], 0⟩ h rfl
    unfold matchToPrevious
    simp only [hnif, List.foldl_nil, hst]
    simp
  · intro st o h hfresh
    rw [matchToPrevious_fresh_one st o h hfresh]
    exact ⟨rfl, by rw [mapFind_mapInsert_self]⟩


/-! ### Helper lemmas: dropping lost objects -/

theorem mapErase_sublist {α : Type} (k : Int) (l : List (Int × α)) :
    (mapErase k l).Sublist l := by
  induction l with
  | nil => simp [mapErase]
  | cons e rest ih =>
    by_cases h1 : e.1 = k
    · simp only [mapErase, if_pos h1]
      exact List.sublist_cons_self e rest
    · simp only [mapErase, if_neg h1]
      exact List.Sublist.cons₂ e ih

theorem MapWF_mapErase {α : Type} (k : Int) (l : List (Int × α))
    (h : MapWF l) : MapWF (mapErase k l) :=
  List.Pairwise.sublist (mapErase_sublist k l) h

/-- A state in which an id is absent from every bookkeeping structure keeps
it absent through the drop sweep (the sweep only erases). -/
theorem dropFold_preserves_absent (l : List (Int × Int)) (st : AggState) (id : Int)
    (ht : mapFind id st.tracked_models = none)
    (hm : id ∉ st.materialized_models)
    (hf : mapFind id st.frames_found = none)
    (hl : mapFind id st.frames_lost = none) :
    mapFind id (l.foldl dropStep st).tracked_models = none ∧
    id ∉ (l.foldl dropStep st).materialized_models ∧
    mapFind id (l.foldl dropStep st).frames_found = none ∧
    mapFind id (l.foldl dropStep st).frames_lost = none := by
  induction l generalizing st with
  | nil => exact ⟨ht, hm, hf, hl⟩
  | cons e rest ih =>
    rw [List.foldl_cons]
    refine ih (dropStep st e) ?_ ?_ ?_ ?_
    · unfold dropStep; split
      · exact mapFind_none_mapErase _ _ _ ht
      · exact ht
    · unfold dropStep; split
      · exact fun hmem => hm (List.mem_of_mem_erase hmem)
      · exact hm
    · unfold dropStep; split
      · exact mapFind_none_mapErase _ _ _ hf
      · exact hf
    · unfold dropStep; split
      · exact mapFind_none_mapErase _ _ _ hl
      · exact hl

/-- An id whose lost count reached the limit is purged from all four
structures by the sweep. -/
theorem dropFold_drops (l : List (Int × Int)) (st : AggState) (id c : Int)
    (hmem : (id, c) ∈ l) (h10 : 10 ≤ c) (hwf : l.Pairwise (fun a b => a.1 < b.1))
    (hwfT : MapWF st.tracked_models) (hwfF : MapWF st.frames_found)
    (hwfL : MapWF st.frames_lost) (hnd : st.materialized_models.Nodup) :
    mapFind id (l.foldl dropStep st).tracked_models = none ∧
    id ∉ (l.foldl dropStep st).materialized_models ∧
    mapFind id (l.foldl dropStep st).frames_found = none ∧
    mapFind id (l.foldl dropStep st).frames_lost = none := by
  induction l generalizing st with
  | nil => simp at hmem
  | cons e rest ih =>
    rw [List.foldl_cons]
    rw [List.pairwise_cons] at hwf
    rcases List.mem_cons.mp hmem with hmem | hmem
    · -- the current entry is (id, c): it is dropped now and stays absent
      have hstep : dropStep st e =
          { st with
              tracked_models := mapErase id st.tracked_models,
              materialized_models := st.materialized_models.erase id,
              frames_found := mapErase id st.frames_found,
              frames_lost := mapErase id st.frames_lost } := by
        rw [← hmem]; unfold dropStep; rw [if_pos h10]
      rw [hstep]
      refine dropFold_preserves_absent rest _ id ?_ ?_ ?_ ?_
      · exact mapFind_mapErase_self _ _ hwfT
      · exact fun hmem2 => (List.Nodup.not_mem_erase hnd) hmem2
      · exact mapFind_mapErase_self _ _ hwfF
      · exact mapFind_mapErase_self _ _ hwfL
    · -- the current entry has another key; its step keeps id covered by ih
      refine ih (dropStep st e) hmem hwf.2 ?_ ?_ ?_ ?_
      · unfold dropStep; split
        · exact MapWF_mapErase _ _ hwfT
        · exact hwfT
      · unfold dropStep; split
        · exact MapWF_mapErase _ _ hwfF
        · exact hwfF
      · unfold dropStep; split
        · exact MapWF_mapErase _ _ hwfL
        · exact hwfL
      · unfold dropStep; split
        · exact List.Nodup.erase _ hnd
        · exact hnd

/-- An id all of whose lost entries are below the limit keeps every piece
of its bookkeeping untouched by the sweep. -/
theorem dropFold_keeps (l : List (Int × Int)) (st : AggState) (id : Int)
    (hlt : ∀ c, (id, c) ∈ l → c < 10) :
    mapFind id (l.foldl dropStep st).tracked_models = mapFind id st.tracked_models ∧
    (id ∈ (l.foldl dropStep st).materialized_models ↔ id ∈ st.materialized_models) ∧
    mapFind id (l.foldl dropStep st).frames_found = mapFind id st.frames_found ∧
    mapFind id (l.foldl dropStep st).frames_lost = mapFind id st.frames_lost := by
  induction l generalizing st with
  | nil => exact ⟨rfl, Iff.rfl, rfl, rfl⟩
  | cons e rest ih =>
    rw [List.foldl_cons]
    by_cases hne : e.1 = id
    · -- the entry of id itself is below the limit: the step is a no-op
      have hc : e.2 < 10 := hlt e.2 (by rw [← hne]; simp)
      have hstep : dropStep st e = st := by
        unfold dropStep; rw [if_neg (by omega)]
      rw [hstep]
      exact ih st (fun c hc2 => hlt c (by simp [hc2]))
    · -- another key: erasing it never touches the entries of id
      obtain ⟨i1, i2, i3, i4⟩ := ih (dropStep st e) (fun c hc => hlt c (by simp [hc]))
      have hstep_t : mapFind id (dropStep st e).tracked_models = mapFind id st.tracked_models := by
        unfold dropStep; split
        · exact mapFind_mapErase_ne _ _ _ hne
        · rfl
      have hstep_m : id ∈ (dropStep st e).materialized_models ↔ id ∈ st.materialized_models := by
        unfold dropStep; split
        · exact List.mem_erase_of_ne (fun hh => hne hh.symm)
        · exact Iff.rfl
      have hstep_f : mapFind id (dropStep st e).frames_found = mapFind id st.frames_found := by
        unfold dropStep; split
        · exact mapFind_mapErase_ne _ _ _ hne
        · rfl
      have hstep_l : mapFind id (dropStep st e).frames_lost = mapFind id st.frames_lost := by
        unfold dropStep; split
        · exact mapFind_mapErase_ne _ _ _ hne
        · rfl
      exact ⟨i1.trans hstep_t, i2.trans hstep_m, i3.trans hstep_f, i4.trans hstep_l⟩

/-- C5: while the lost-streak of a tracked identity is at most 9, the drop
sweep leaves its tracked entry, its materialized membership and both of its
counters exactly as they were; once the streak reaches 10 the single
`dropLostObjects` transition removes it from the tracked table, the
materialized list and both counter maps simultaneously — after the sweep no
structure still holds the identity, so no partially-cleared state is ever
handed to the rest of the frame step. -/
theorem C5_eviction_boundary (st : AggState) (id c : Int)
    (hwfT : MapWF st.tracked_models) (hwfF : MapWF st.frames_found)
    (hwfL : MapWF st.frames_lost) (hnd : st.materialized_models.Nodup)
    (hmem : (id, c) ∈ st.frames_lost) :
    (c ≤ 9 →
      mapFind id (dropLostObjects st).tracked_models = mapFind id st.tracked_models ∧
      (id ∈ (dropLostObjects st).materialized_models ↔ id ∈ st.materialized_models) ∧
      mapFind id (dropLostObjects st).frames_found = mapFind id st.frames_found ∧
      mapFind id (dropLostObjects st).frames_lost = some c) ∧
    (10 ≤ c →
      mapFind id (dropLostObjects st).tracked_models = none ∧
      id ∉ (dropLostObjects st).materialized_models ∧
      mapFind id (dropLostObjects st).frames_found = none ∧
      mapFind id (dropLostObjects st).frames_lost = none) := by
  constructor
  · intro h9
    have hlt : ∀ c', (id, c') ∈ st.frames_lost → c' < 10 := by
      intro c' hc'
      have := MapWF_mem_unique hwfL hmem hc'
      omega
    obtain ⟨k1, k2, k3, k4⟩ := dropFold_keeps st.frames_lost st id hlt
    exact ⟨k1, k2, k3, k4.trans (mapFind_eq_of_mem hwfL hmem)⟩
  · intro h10
    exact dropFold_drops st.frames_lost st id c hmem h10 hwfL hwfT hwfF hwfL hnd

/-- Witness for `C5_eviction_boundary`: a state where id 0 has been lost 10
frames in a row is purged from all four structures by the sweep. -/
theorem C5_eviction_boundary_witness :
    mapFind 0 (dropLostObjects
        { next_model_id := 2,
          tracked_models := [(0, ObjectModel.sphere 0 ⟨0, 0, 0⟩ 1), (1, ObjectModel.sphere 1 ⟨1, 1, 1⟩ 1)],
          frames_found := [(1, 2)], frames_lost := [(0, 10), (1, 3)],
          materialized_models := [0], frame_cnt := 12 }).tracked_models = none ∧
    0 ∉ (dropLostObjects
        { next_model_id := 2,
          tracked_models := [(0, ObjectModel.sphere 0 ⟨0, 0, 0⟩ 1), (1, ObjectModel.sphere 1 ⟨1, 1, 1⟩ 1)],
          frames_found := [(1, 2)], frames_lost := [(0, 10), (1, 3)],
          materialized_models := [0], frame_cnt := 12 }).materialized_models ∧
    mapFind 0 (dropLostObjects
        { next_model_id := 2,
          tracked_models := [(0, ObjectModel.sphere 0 ⟨0, 0, 0⟩ 1), (1, ObjectModel.sphere 1 ⟨1, 1, 1⟩ 1)],
          frames_found := [(1, 2)], frames_lost := [(0, 10), (1, 3)],
          materialized_models := [0], frame_cnt := 12 }).frames_found = none ∧
    mapFind 0 (dropLostObjects
        { next_model_id := 2,
          tracked_models := [(0, ObjectModel.sphere 0 ⟨0, 0, 0⟩ 1), (1, ObjectModel.sphere 1 ⟨1, 1, 1⟩ 1)],
          frames_found := [(1, 2)], frames_lost := [(0, 10), (1, 3)],
          materialized_models := [0], frame_cnt := 12 }).frames_lost = none :=
  (C5_eviction_boundary
    { next_model_id := 2,
      tracked_models := [(0, ObjectModel.sphere 0 ⟨0, 0, 0⟩ 1), (1, ObjectModel.sphere 1 ⟨1, 1, 1⟩ 1)],
      frames_found := [(1, 2)], frames_lost := [(0, 10), (1, 3)],
      materialized_models := [0], frame_cnt := 12 } 0 10
    (by simp [MapWF]) (by simp [MapWF]) (by simp [MapWF]) (by simp)
    (by simp)).2 (by norm_num)


/-! ### Helper lemmas: the lost-and-found streak update -/

theorem lostFoundStep_fields (new_matches : List (Int × Nat)) (st : AggState)
    (e : Int × ObjectModel) :
    (lostFoundStep new_matches st e).tracked_models = st.tracked_models ∧
    (lostFoundStep new_matches st e).materialized_models = st.materialized_models ∧
    (lostFoundStep new_matches st e).next_model_id = st.next_model_id ∧
    (lostFoundStep new_matches st e).frame_cnt = st.frame_cnt := by
  simp only [lostFoundStep]
  split_ifs <;> exact ⟨rfl, rfl, rfl, rfl⟩

theorem lostFoundStep_other (new_matches : List (Int × Nat)) (st : AggState)
    (e : Int × ObjectModel) (id : Int) (hne : e.1 ≠ id) :
    mapFind id (lostFoundStep new_matches st e).frames_found = mapFind id st.frames_found ∧
    mapFind id (lostFoundStep new_matches st e).frames_lost = mapFind id st.frames_lost := by
  simp only [lostFoundStep]
  split_ifs <;>
    simp [mapFind_mapInsert_ne _ _ _ _ hne]

theorem lostFoundFold_fields (l : List (Int × ObjectModel))
    (new_matches : List (Int × Nat)) (st : AggState) :
    (l.foldl (lostFoundStep new_matches) st).tracked_models = st.tracked_models ∧
    (l.foldl (lostFoundStep new_matches) st).materialized_models = st.materialized_models ∧
    (l.foldl (lostFoundStep new_matches) st).next_model_id = st.next_model_id ∧
    (l.foldl (lostFoundStep new_matches) st).frame_cnt = st.frame_cnt := by
  induction l generalizing st with
  | nil => exact ⟨rfl, rfl, rfl, rfl⟩
  | cons e rest ih =>
    rw [List.foldl_cons]
    obtain ⟨i1, i2, i3, i4⟩ := ih (lostFoundStep new_matches st e)
    obtain ⟨s1, s2, s3, s4⟩ := lostFoundStep_fields new_matches st e
    exact ⟨i1.trans s1, i2.trans s2, i3.trans s3, i4.trans s4⟩

theorem lostFoundFold_other (l : List (Int × ObjectModel))
    (new_matches : List (Int × Nat)) (st : AggState) (id : Int)
    (h : ∀ f ∈ l, f.1 ≠ id) :
    mapFind id (l.foldl (lostFoundStep new_matches) st).frames_found =
      mapFind id st.frames_found ∧
    mapFind id (l.foldl (lostFoundStep new_matches) st).frames_lost =
      mapFind id st.frames_lost := by
  induction l generalizing st with
  | nil => exact ⟨rfl, rfl⟩
  | cons e rest ih =>
    rw [List.foldl_cons]
    obtain ⟨i1, i2⟩ := ih (lostFoundStep new_matches st e) (fun f hf => h f (by simp [hf]))
    obtain ⟨s1, s2⟩ := lostFoundStep_other new_matches st e id (h e (by simp))
    exact ⟨i1.trans s1, i2.trans s2⟩

/-- The streak update of a single tracked id, traced along the whole fold:
a matched id resets its lost streak and increments its found streak only
when it is not materialized; an unmatched id resets its found streak and
increments its lost streak. -/
theorem lostFoundFold_key (l : List (Int × ObjectModel))
    (new_matches : List (Int × Nat)) (st : AggState) (id : Int) (m : ObjectModel)
    (hmem : (id, m) ∈ l) (hwf : l.Pairwise (fun a b => a.1 < b.1)) :
    ((mapFind id new_matches).isSome →
      mapFind id (l.foldl (lostFoundStep new_matches) st).frames_lost = some 0 ∧
      (id ∈ st.materialized_models →
        mapFind id (l.foldl (lostFoundStep new_matches) st).frames_found =
          mapFind id st.frames_found) ∧
      (id ∉ st.materialized_models →
        mapFind id (l.foldl (lostFoundStep new_matches) st).frames_found =
          some ((mapFind id st.frames_found).getD 0 + 1))) ∧
    ((mapFind id new_matches).isNone →
      mapFind id (l.foldl (lostFoundStep new_matches) st).frames_found = some 0 ∧
      mapFind id (l.foldl (lostFoundStep new_matches) st).frames_lost =
        some ((mapFind id st.frames_lost).getD 0 + 1)) := by
  induction l generalizing st with
  | nil => simp at hmem
  | cons e rest ih =>
    rw [List.foldl_cons]
    rw [List.pairwise_cons] at hwf
    rcases List.mem_cons.mp hmem with hmem | hmem
    · -- the step of id itself writes the final counters; the rest of the
      -- fold only touches other (strictly larger) keys
      have hid : e.1 = id := by rw [← hmem]
      have hrest : ∀ f ∈ rest, f.1 ≠ id := by
        intro f hf
        have := hwf.1 f hf
        omega
      obtain ⟨r1, r2⟩ := lostFoundFold_other rest new_matches
        (lostFoundStep new_matches st e) id hrest
      constructor
      · intro hmatch
        have hsome : (mapFind e.1 new_matches).isSome := by rw [hid]; exact hmatch
        constructor
        · rw [r2]
          simp only [lostFoundStep, hsome, if_pos]
          split_ifs <;> simp [hid, mapFind_mapInsert_self]
        · constructor
          · intro hmat
            rw [r1]
            have hcont : st.materialized_models.contains e.1 = true := by
              rw [hid]; simp [hmat]
            simp only [lostFoundStep, hsome, if_pos, hcont, if_true]
          · intro hmat
            rw [r1]
            have hcont : ¬ (st.materialized_models.contains e.1 = true) := by
              rw [hid]; simp [hmat]
            simp only [lostFoundStep, hsome, if_pos, hcont, if_false]
            simp [hid, mapFind_mapInsert_self]
      · intro hmatch
        have hnone : ¬ ((mapFind e.1 new_matches).isSome = true) := by
          rw [hid]
          simp [Option.isNone_iff_eq_none.mp hmatch]
        refine ⟨?_, ?_⟩
        · rw [r1]
          simp only [lostFoundStep, if_neg hnone]
          simp [hid, mapFind_mapInsert_self]
        · rw [r2]
          simp only [lostFoundStep, if_neg hnone]
          simp [hid, mapFind_mapInsert_self]
    · -- the head has a different key: its step leaves the counters of id as
      -- they were and the rest of the fold is handled by the induction
      have hne : e.1 ≠ id := by
        intro hEq
        have := hwf.1 (id, m) hmem
        omega
      obtain ⟨s1, s2⟩ := lostFoundStep_other new_matches st e id hne
      have hmat : (lostFoundStep new_matches st e).materialized_models =
          st.materialized_models := (lostFoundStep_fields new_matches st e).2.1
      obtain ⟨k1, k2⟩ := ih (lostFoundStep new_matches st e) hmem hwf.2
      constructor
      · intro hmatch
        obtain ⟨a1, a2, a3⟩ := k1 hmatch
        refine ⟨a1, ?_, ?_⟩
        · intro hm
          rw [a2 (by rw [hmat]; exact hm), s1]
        · intro hm
          rw [a3 (by rw [hmat]; exact hm), s1]
      · intro hmatch
        obtain ⟨a1, a2⟩ := k2 hmatch
        exact ⟨a1, by rw [a2, s2]⟩

/-- C7: for every tracked identity the per-frame streak update is exactly
the one claimed: a matched identity has its lost-streak reset to 0 and its
found-streak incremented only while unconfirmed (not materialized — a
confirmed identity keeps its found entry untouched); an unmatched identity
has its found-streak reset to 0 and its lost-streak incremented
unconditionally. -/
theorem C7_streak_exclusivity (st : AggState) (new_matches : List (Int × Nat))
    (id : Int) (m : ObjectModel)
    (hmem : (id, m) ∈ st.tracked_models) (hwf : MapWF st.tracked_models) :
    ((mapFind id new_matches).isSome →
      mapFind id (updateLostAndFound st new_matches).frames_lost = some 0 ∧
      (id ∈ st.materialized_models →
        mapFind id (updateLostAndFound st new_matches).frames_found =
          mapFind id st.frames_found) ∧
      (id ∉ st.materialized_models →
        mapFind id (updateLostAndFound st new_matches).frames_found =
          some ((mapFind id st.frames_found).getD 0 + 1))) ∧
    ((mapFind id new_matches).isNone →
      mapFind id (updateLostAndFound st new_matches).frames_found = some 0 ∧
      mapFind id (updateLostAndFound st new_matches).frames_lost =
        some ((mapFind id st.frames_lost).getD 0 + 1)) :=
  lostFoundFold_key st.tracked_models new_matches st id m hmem hwf

/-- Witness for `C7_streak_exclusivity`: an unconfirmed tracked id 0 with
found streak 2 and lost streak 5 that is matched this frame ends with lost
reset to 0 and found incremented to 3. -/
theorem C7_streak_exclusivity_witness :
    mapFind 0 (updateLostAndFound
        { next_model_id := 1,
          tracked_models := [(0, ObjectModel.sphere 0 ⟨0, 0, 0⟩ 1)],
          frames_found := [(0, 2)], frames_lost := [(0, 5)],
          materialized_models := [], frame_cnt := 3 } [(0, 0)]).frames_lost = some 0 ∧
    mapFind 0 (updateLostAndFound
        { next_model_id := 1,
          tracked_models := [(0, ObjectModel.sphere 0 ⟨0, 0, 0⟩ 1)],
          frames_found := [(0, 2)], frames_lost := [(0, 5)],
          materialized_models := [], frame_cnt := 3 } [(0, 0)]).frames_found = some 3 := by
  have h := (C7_streak_exclusivity
    { next_model_id := 1,
      tracked_models := [(0, ObjectModel.sphere 0 ⟨0, 0, 0⟩ 1)],
      frames_found := [(0, 2)], frames_lost := [(0, 5)],
      materialized_models := [], frame_cnt := 3 } [(0, 0)] 0
    (ObjectModel.sphere 0 ⟨0, 0, 0⟩ 1) (by simp) (by simp [MapWF])).1
    (by simp [mapFind])
  obtain ⟨h1, _, h3⟩ := h
  refine ⟨h1, ?_⟩
  rw [h3 (by simp)]
  simp [mapFind]



/-! ### Helper lemmas: materializing found objects -/

theorem materializeFold_mem (l : List (Int × Int)) (st : AggState) (id : Int) :
    id ∈ (l.foldl materializeStep st).materialized_models ↔
      id ∈ st.materialized_models ∨ ∃ c, (id, c) ∈ l ∧ 5 ≤ c := by
  induction l generalizing st with
  | nil => simp
  | cons e rest ih =>
    rw [List.foldl_cons, ih]
    by_cases h5 : 5 ≤ e.2
    · have hstep : (materializeStep st e).materialized_models =
          st.materialized_models ++ [e.1] := by
        unfold materializeStep; rw [if_pos h5]
      rw [hstep]
      constructor
      · intro h
        rcases h with h | ⟨c, hc, hc5⟩
        · rcases List.mem_append.mp h with h | h
          · exact Or.inl h
          · refine Or.inr ⟨e.2, ?_, h5⟩
            rw [List.mem_singleton.mp h]
            simp
        · exact Or.inr ⟨c, by simp [hc], hc5⟩
      · intro h
        rcases h with h | ⟨c, hc, hc5⟩
        · exact Or.inl (List.mem_append.mpr (Or.inl h))
        · rcases List.mem_cons.mp hc with hc | hc
          · refine Or.inl (List.mem_append.mpr (Or.inr ?_))
            rw [List.mem_singleton]
            exact (Prod.ext_iff.mp hc).1
          · exact Or.inr ⟨c, hc, hc5⟩
    · have hstep : materializeStep st e = st := by
        unfold materializeStep; rw [if_neg h5]
      rw [hstep]
      constructor
      · intro h
        rcases h with h | ⟨c, hc, hc5⟩
        · exact Or.inl h
        · exact Or.inr ⟨c, by simp [hc], hc5⟩
      · intro h
        rcases h with h | ⟨c, hc, hc5⟩
        · exact Or.inl h
        · rcases List.mem_cons.mp hc with hc | hc
          · exfalso
            have : c = e.2 := (Prod.ext_iff.mp hc).2
            omega
          · exact Or.inr ⟨c, hc, hc5⟩

theorem materializeFold_append (l : List (Int × Int)) (st : AggState) :
    ∃ t, (l.foldl materializeStep st).materialized_models =
      st.materialized_models ++ t := by
  induction l generalizing st with
  | nil => exact ⟨[], by simp⟩
  | cons e rest ih =>
    rw [List.foldl_cons]
    by_cases h5 : 5 ≤ e.2
    · obtain ⟨t, ht⟩ := ih (materializeStep st e)
      have hstep : (materializeStep st e).materialized_models =
          st.materialized_models ++ [e.1] := by
        unfold materializeStep; rw [if_pos h5]
      refine ⟨e.1 :: t, ?_⟩
      rw [ht, hstep]
      simp
    · have hstep : materializeStep st e = st := by
        unfold materializeStep; rw [if_neg h5]
      rw [hstep]
      exact ih st

/-- C4 counterexample: running scenario A for 5 frames confirms identity 0,
and one further empty frame resets its found-streak entry to 0 while the
identity remains in the materialized set — so a tracked identity CAN be in
MaterializedSet on a frame in which its found-streak is at most 4. -/
theorem C4_counterexample :
    (runFrames initState
        [scenarioAObs, scenarioAObs, scenarioAObs, scenarioAObs, scenarioAObs, []]).materialized_models
      = [0] ∧
    mapFind 0 (runFrames initState
        [scenarioAObs, scenarioAObs, scenarioAObs, scenarioAObs, scenarioAObs, []]).frames_found
      = some 0 ∧
    (mapFind 0 (runFrames initState
        [scenarioAObs, scenarioAObs, scenarioAObs, scenarioAObs, scenarioAObs, []]).tracked_models).isSome
      = true := by
  refine ⟨?_, ?_, ?_⟩ <;>
    norm_num [runFrames, updateObstacles, matchToPrevious, scanStep,
      getMatchByDistance, matchAccum, nextModelId, sqDist, ObjectModel.center_point,
      mapInsert, mapFind, mapErase, insertNewTracked, ObjectModel.set_id,
      updateLostAndFound, lostFoundStep, adaptTracked, adaptStep, adaptModel, ObjectModel.blend,
      Coordinate.add_def, Coordinate.sub_def, Coordinate.div_def, dropLostObjects,
      dropStep, materializeFoundObjects, materializeStep, copyMaterialized,
      scenarioAObs, initState, List.erase, List.filterMap]

/-- C4 (amended): the materialize sweep adds an identity to MaterializedSet
exactly when its found-streak entry has reached 5, appending it at the back
(existing entries keep their order); an identity that has never been
materialized and whose found-streak is at most 4 is therefore absent. Once
materialized it stays regardless of the found-streak (see the
counterexample). In scenario A the emitted set has size 0 on frames 1-4 and
size 1 on frame 5. -/
theorem C4_promotion_boundary :
    (∀ (st : AggState) (id : Int),
      id ∈ (materializeFoundObjects st).materialized_models ↔
        id ∈ st.materialized_models ∨ ∃ c, (id, c) ∈ st.frames_found ∧ 5 ≤ c) ∧
    (∀ st : AggState, ∃ t, (materializeFoundObjects st).materialized_models =
        st.materialized_models ++ t) ∧
    (frameOutput (scenarioARun 0) scenarioAObs).length = 0 ∧
    (frameOutput (scenarioARun 1) scenarioAObs).length = 0 ∧
    (frameOutput (scenarioARun 2) scenarioAObs).length = 0 ∧
    (frameOutput (scenarioARun 3) scenarioAObs).length = 0 ∧
    (frameOutput (scenarioARun 4) scenarioAObs).length = 1 := by
  refine ⟨fun st id => materializeFold_mem st.frames_found st id,
    fun st => materializeFold_append st.frames_found st, ?_, ?_, ?_, ?_, ?_⟩ <;>
    norm_num [scenarioARun, frameOutput, runFrames, updateObstacles, matchToPrevious,
      scanStep, getMatchByDistance, matchAccum, nextModelId, sqDist,
      ObjectModel.center_point, mapInsert, mapFind, mapErase, insertNewTracked,
      ObjectModel.set_id, updateLostAndFound, lostFoundStep, adaptTracked, adaptStep,
      adaptModel, ObjectModel.blend, Coordinate.add_def, Coordinate.sub_def, Coordinate.div_def,
      dropLostObjects, dropStep, materializeFoundObjects, materializeStep,
      copyMaterialized, scenarioAObs, initState, List.erase, List.filterMap,
      List.replicate]



/-! ### Helper lemmas: geometry blending -/

mutual
theorem ObjectModel.blend_center (v : Coordinate) :
    ∀ m : ObjectModel, m.wf → (m.blend v).center_point = m.center_point + v
  | .sphere i c r, _ => by
    simp [ObjectModel.blend, ObjectModel.center_point]
  | .capsule i a b r, _ => by
    simp only [ObjectModel.blend, ObjectModel.center_point]
    apply Coordinate.ext_xyz <;>
      simp [Coordinate.add_def, Coordinate.div_def] <;> ring
  | .composite i ms, hwf => by
    obtain ⟨hne, hall⟩ := hwf
    obtain ⟨hlen, hsum⟩ := ModelList.blendAll_stats v ms hall
    simp only [ObjectModel.blend, ObjectModel.center_point, hlen, hsum]
    have hn : ((ms.len : ℚ)) ≠ 0 := by exact_mod_cast hne
    apply Coordinate.ext_xyz <;>
      simp [Coordinate.add_def, Coordinate.div_def, Coordinate.smul_def] <;>
      field_simp <;> ring
theorem ModelList.blendAll_stats (v : Coordinate) :
    ∀ ms : ModelList, ms.wfAll →
      (ms.blendAll v).len = ms.len ∧
      (ms.blendAll v).centerSum = ms.centerSum + (ms.len : ℚ) • v
  | .nil, _ => by
    simp [ModelList.blendAll, ModelList.len, ModelList.centerSum,
      Coordinate.add_def, Coordinate.smul_def]
  | .cons m rest, h => by
    obtain ⟨hm, hrest⟩ := h
    obtain ⟨hlen, hsum⟩ := ModelList.blendAll_stats v rest hrest
    constructor
    · simp [ModelList.blendAll, ModelList.len, hlen]
    · simp only [ModelList.blendAll, ModelList.centerSum, hsum,
        ObjectModel.blend_center v m hm, ModelList.len]
      apply Coordinate.ext_xyz <;>
        simp [Coordinate.add_def, Coordinate.smul_def] <;> ring
end

/-! ### Helper lemmas: the per-frame geometry adaptation -/

theorem adaptStep_fields (obs : List ObjectModel) (st : AggState) (e : Int × Nat) :
    (adaptStep obs st e).frames_found = st.frames_found ∧
    (adaptStep obs st e).frames_lost = st.frames_lost ∧
    (adaptStep obs st e).materialized_models = st.materialized_models ∧
    (adaptStep obs st e).next_model_id = st.next_model_id ∧
    (adaptStep obs st e).frame_cnt = st.frame_cnt := by
  unfold adaptStep
  split <;> exact ⟨rfl, rfl, rfl, rfl, rfl⟩

theorem adaptStep_other (obs : List ObjectModel) (st : AggState) (e : Int × Nat)
    (id : Int) (hne : e.1 ≠ id) :
    mapFind id (adaptStep obs st e).tracked_models = mapFind id st.tracked_models := by
  unfold adaptStep
  split
  · exact mapFind_mapInsert_ne _ _ _ _ hne
  · rfl

theorem adaptFold_other (corr : List (Int × Nat)) (obs : List ObjectModel)
    (st : AggState) (id : Int) (h : ∀ f ∈ corr, f.1 ≠ id) :
    mapFind id (corr.foldl (adaptStep obs) st).tracked_models =
      mapFind id st.tracked_models := by
  induction corr generalizing st with
  | nil => rfl
  | cons e rest ih =>
    rw [List.foldl_cons]
    exact (ih (adaptStep obs st e) (fun f hf => h f (by simp [hf]))).trans
      (adaptStep_other obs st e id (h e (by simp)))

theorem adaptFold_cnt (corr : List (Int × Nat)) (obs : List ObjectModel)
    (st : AggState) :
    (corr.foldl (adaptStep obs) st).frame_cnt = st.frame_cnt := by
  induction corr generalizing st with
  | nil => rfl
  | cons e rest ih =>
    rw [List.foldl_cons]
    exact (ih (adaptStep obs st e)).trans (adaptStep_fields obs st e).2.2.2.2

/-- The final tracked geometry of an id matched to observation `i`: exactly
the adapted model computed from its pre-adaptation geometry and that
observation. -/
theorem adaptFold_key (corr : List (Int × Nat)) (obs : List ObjectModel)
    (st : AggState) (id : Int) (i : Nat) (m o : ObjectModel)
    (hmem : (id, i) ∈ corr) (hwf : corr.Pairwise (fun a b => a.1 < b.1))
    (hm : mapFind id st.tracked_models = some m) (ho : obs.get? i = some o) :
    mapFind id (corr.foldl (adaptStep obs) st).tracked_models =
      some (adaptModel st.frame_cnt m o) := by
  induction corr generalizing st with
  | nil => simp at hmem
  | cons e rest ih =>
    rw [List.foldl_cons]
    rw [List.pairwise_cons] at hwf
    rcases List.mem_cons.mp hmem with hmem | hmem
    · -- the head is (id, i): the step writes the adapted model and the rest
      -- of the fold only touches strictly larger keys
      have hrest : ∀ f ∈ rest, f.1 ≠ id := by
        intro f hf
        have := hwf.1 f hf
        rw [← hmem] at this
        omega
      rw [adaptFold_other rest obs _ id hrest]
      have hstep : adaptStep obs st e =
          { st with tracked_models :=
              mapInsert id (adaptModel st.frame_cnt m o) st.tracked_models } := by
        rw [← hmem]
        unfold adaptStep
        rw [hm, ho]
      rw [hstep]
      exact mapFind_mapInsert_self _ _ _
    · -- another key first: its step does not touch id
      have hne : e.1 ≠ id := by
        intro hEq
        have := hwf.1 (id, i) hmem
        omega
      have hcnt : (adaptStep obs st e).frame_cnt = st.frame_cnt :=
        (adaptStep_fields obs st e).2.2.2.2
      have hm2 : mapFind id (adaptStep obs st e).tracked_models = some m :=
        (adaptStep_other obs st e id hne).trans hm
      have := ih (adaptStep obs st e) hmem hwf.2 hm2
      rw [hcnt] at this
      exact this

/-- C8: for every identity matched this frame (away from the periodic
refresh), the track updater stores exactly the tracked geometry translated
as one rigid motion by `(new_center - old_center) / 2` — the sphere and
capsule variants translate their own reference geometry and the composite
variant recursively translates every child — and consequently the tracked
reference point moves exactly halfway toward the observed reference
point. -/
theorem C8_blend_halfway (st : AggState) (corr : List (Int × Nat))
    (obs : List ObjectModel) (id : Int) (i : Nat) (m o : ObjectModel)
    (hwf : MapWF corr) (hmem : (id, i) ∈ corr)
    (hm : mapFind id st.tracked_models = some m) (ho : obs.get? i = some o)
    (hwfm : m.wf) (hcnt : ¬ (st.frame_cnt % 30 = 0)) :
    mapFind id (adaptTracked st corr obs).tracked_models =
      some (m.blend ((o.center_point - m.center_point) / (2 : ℚ))) ∧
    (m.blend ((o.center_point - m.center_point) / (2 : ℚ))).center_point =
      (m.center_point + o.center_point) / (2 : ℚ) := by
  unfold adaptTracked
  constructor
  · have := adaptFold_key corr obs st id i m o hmem hwf hm ho
    rw [this]
    unfold adaptModel
    rw [if_neg hcnt]
  · rw [ObjectModel.blend_center _ m hwfm]
    apply Coordinate.ext_xyz <;>
      simp [Coordinate.add_def, Coordinate.sub_def, Coordinate.div_def] <;> ring

/-- Witness for `C8_blend_halfway`: a tracked sphere at the origin matched
to an observation at (1/10, 0, 0) on a non-refresh frame ends at the
midpoint (1/20, 0, 0). -/
theorem C8_blend_halfway_witness :
    mapFind 0 (adaptTracked
        { next_model_id := 1,
          tracked_models := [(0, ObjectModel.sphere 0 ⟨0, 0, 0⟩ 1)],
          frames_found := [(0, 1)], frames_lost := [(0, 0)],
          materialized_models := [], frame_cnt := 1 }
        [(0, 0)] [ObjectModel.sphere (-1) ⟨1/10, 0, 0⟩ 1]).tracked_models =
      some ((ObjectModel.sphere 0 ⟨0, 0, 0⟩ 1).blend
        (((ObjectModel.sphere (-1) ⟨1/10, 0, 0⟩ 1).center_point -
          (ObjectModel.sphere 0 ⟨0, 0, 0⟩ 1).center_point) / (2 : ℚ))) ∧
    ((ObjectModel.sphere 0 ⟨0, 0, 0⟩ 1).blend
        (((ObjectModel.sphere (-1) ⟨1/10, 0, 0⟩ 1).center_point -
          (ObjectModel.sphere 0 ⟨0, 0, 0⟩ 1).center_point) / (2 : ℚ))).center_point =
      ((ObjectModel.sphere 0 ⟨0, 0, 0⟩ 1).center_point +
        (ObjectModel.sphere (-1) ⟨1/10, 0, 0⟩ 1).center_point) / (2 : ℚ) :=
  C8_blend_halfway
    { next_model_id := 1,
      tracked_models := [(0, ObjectModel.sphere 0 ⟨0, 0, 0⟩ 1)],
      frames_found := [(0, 1)], frames_lost := [(0, 0)],
      materialized_models := [], frame_cnt := 1 }
    [(0, 0)] [ObjectModel.sphere (-1) ⟨1/10, 0, 0⟩ 1] 0 0
    (ObjectModel.sphere 0 ⟨0, 0, 0⟩ 1) (ObjectModel.sphere (-1) ⟨1/10, 0, 0⟩ 1)
    (by simp [MapWF]) (by simp) (by simp [mapFind]) (by simp [List.get?])
    (by simp [ObjectModel.wf]) (by norm_num)

/-- C9 counterexample: on frame 30, a tracked composite (one child sphere
at the origin, reference point the origin) matched to a composite
observation (one child sphere at (1, 1, 1)) ends stored with the
observation child list, whose reference point is (1, 1, 1) — the
observation position, NOT the midpoint (1/2, 1/2, 1/2) that the blend had
produced: since `ModelVisitor` has no composite case, a composite position
derives from its children, and the wholesale replacement discards the
positional midpoint blend that frame. -/
theorem C9_counterexample :
    mapFind 0 (adaptTracked
        { next_model_id := 1,
          tracked_models :=
            [(0, ObjectModel.composite 0 (.cons (.sphere 1 ⟨0, 0, 0⟩ 1) .nil))],
          frames_found := [(0, 1)], frames_lost := [(0, 0)],
          materialized_models := [], frame_cnt := 30 }
        [(0, 0)] [ObjectModel.composite (-1) (.cons (.sphere 2 ⟨1, 1, 1⟩ 1) .nil)]).tracked_models =
      some (ObjectModel.composite 0 (.cons (.sphere 2 ⟨1, 1, 1⟩ 1) .nil)) ∧
    (ObjectModel.composite 0 (.cons (.sphere 2 ⟨1, 1, 1⟩ 1) .nil)).center_point =
      ⟨1, 1, 1⟩ ∧
    ((ObjectModel.composite 0 (.cons (.sphere 1 ⟨0, 0, 0⟩ 1) .nil)).center_point +
        (ObjectModel.composite (-1) (.cons (.sphere 2 ⟨1, 1, 1⟩ 1) .nil)).center_point) /
        (2 : ℚ) =
      ⟨1/2, 1/2, 1/2⟩ ∧
    (⟨1, 1, 1⟩ : Coordinate) ≠ ⟨1/2, 1/2, 1/2⟩ := by
  refine ⟨?_, ?_, ?_, ?_⟩ <;>
    norm_num [adaptTracked, adaptStep, adaptModel, mapFind, mapInsert,
      ObjectModel.blend, ModelList.blendAll, ObjectModel.center_point,
      ModelList.centerSum, ModelList.len, Coordinate.add_def, Coordinate.sub_def,
      Coordinate.div_def, List.get?]

/-- C9 (amended): on a refresh frame (frame counter divisible by 30), a
matched identity whose tracked geometry and whose observation are both
composite has its child-shape list replaced wholesale by the observation
child list; the midpoint blend is computed first, on the old children, and
the replacement then discards it, so the stored geometry (and with it the
tracked position) is the observation decomposition, not the midpoint. If
either side is not the composite variant the refresh is a no-op and the
stored geometry is exactly the midpoint blend, with no other blending
strategy. -/
theorem C9_periodic_refresh (st : AggState) (corr : List (Int × Nat))
    (obs : List ObjectModel) (id : Int) (i : Nat) (m o : ObjectModel)
    (hwf : MapWF corr) (hmem : (id, i) ∈ corr)
    (hm : mapFind id st.tracked_models = some m) (ho : obs.get? i = some o)
    (hcnt : st.frame_cnt % 30 = 0) :
    (∀ tid tms oid oms, m = .composite tid tms → o = .composite oid oms →
      mapFind id (adaptTracked st corr obs).tracked_models =
        some (.composite tid oms)) ∧
    (m.isComposite = false ∨ o.isComposite = false →
      mapFind id (adaptTracked st corr obs).tracked_models =
        some (m.blend ((o.center_point - m.center_point) / (2 : ℚ)))) := by
  unfold adaptTracked
  have hkey := adaptFold_key corr obs st id i m o hmem hwf hm ho
  constructor
  · intro tid tms oid oms hmc hoc
    rw [hkey, hmc, hoc]
    simp [adaptModel, hcnt, ObjectModel.blend]
  · intro hnc
    rw [hkey]
    unfold adaptModel
    rw [if_pos hcnt]
    rcases hnc with hnc | hnc <;> cases m <;> cases o <;>
      simp [ObjectModel.isComposite] at hnc ⊢ <;>
      simp [ObjectModel.blend]

/-- Witness for `C9_periodic_refresh`: on frame 30 a tracked composite
(one sphere at the origin) matched to a composite observation (one sphere
at (1, 1, 1)) has its child list replaced by the observation child list,
keeping its own id. -/
theorem C9_periodic_refresh_witness :
    mapFind 0 (adaptTracked
        { next_model_id := 1,
          tracked_models :=
            [(0, ObjectModel.composite 0 (.cons (.sphere 1 ⟨0, 0, 0⟩ 1) .nil))],
          frames_found := [(0, 1)], frames_lost := [(0, 0)],
          materialized_models := [], frame_cnt := 30 }
        [(0, 0)] [ObjectModel.composite (-1) (.cons (.sphere 2 ⟨1, 1, 1⟩ 1) .nil)]).tracked_models =
      some (ObjectModel.composite 0 (.cons (.sphere 2 ⟨1, 1, 1⟩ 1) .nil)) :=
  (C9_periodic_refresh
    { next_model_id := 1,
      tracked_models :=
        [(0, ObjectModel.composite 0 (.cons (.sphere 1 ⟨0, 0, 0⟩ 1) .nil))],
      frames_found := [(0, 1)], frames_lost := [(0, 0)],
      materialized_models := [], frame_cnt := 30 }
    [(0, 0)] [ObjectModel.composite (-1) (.cons (.sphere 2 ⟨1, 1, 1⟩ 1) .nil)] 0 0
    (ObjectModel.composite 0 (.cons (.sphere 1 ⟨0, 0, 0⟩ 1) .nil))
    (ObjectModel.composite (-1) (.cons (.sphere 2 ⟨1, 1, 1⟩ 1) .nil))
    (by simp [MapWF]) (by simp) (by simp [mapFind]) (by simp [List.get?])
    (by norm_num)).1 0 (.cons (.sphere 1 ⟨0, 0, 0⟩ 1) .nil)
    (-1) (.cons (.sphere 2 ⟨1, 1, 1⟩ 1) .nil) rfl rfl



/-! ### Helper lemmas: double-precision matcher arithmetic -/

theorem DVal.sub_none_right (a : DVal) : a.sub none = none := by
  cases a <;> rfl

theorem DVal.sub_none_left (b : DVal) : DVal.sub none b = none := by
  cases b <;> rfl

theorem DVal.mul_none (b : DVal) : DVal.mul none b = none := by
  cases b <;> rfl

theorem DVal.add_none_right (a : DVal) : a.add none = none := by
  cases a <;> rfl

theorem DVal.add_none_left (b : DVal) : DVal.add none b = none := by
  cases b <;> rfl

theorem DVal.leD_none (b : DVal) : DVal.leD none b = false := by
  cases b <;> rfl

/-- A non-finite coordinate makes the whole squared distance non-finite. -/
theorem sqDistD_nonfinite (p q : DCoordinate) (hq : ¬ q.finite) :
    sqDistD p q = none := by
  unfold DCoordinate.finite at hq
  push_neg at hq
  unfold sqDistD
  by_cases hx : q.x = none
  · rw [hx, DVal.sub_none_right, DVal.mul_none, DVal.add_none_left, DVal.add_none_left]
  · by_cases hy : q.y = none
    · rw [hy, DVal.sub_none_right, DVal.mul_none, DVal.add_none_right, DVal.add_none_left]
    · have hz : q.z = none := hq hx hy
      rw [hz, DVal.sub_none_right, DVal.mul_none, DVal.add_none_right]

theorem matchAccumD_nonfinite (q : DCoordinate) (hq : ¬ q.finite)
    (acc : Bool × DVal × Int) (e : Int × DCoordinate) :
    matchAccumD q acc e = acc := by
  unfold matchAccumD
  rw [sqDistD_nonfinite e.2 q hq]
  simp [DVal.leD_none]

theorem matchFoldD_nonfinite (q : DCoordinate) (hq : ¬ q.finite)
    (l : List (Int × DCoordinate)) (acc : Bool × DVal × Int) :
    l.foldl (matchAccumD q) acc = acc := by
  induction l generalizing acc with
  | nil => rfl
  | cons e rest ih =>
    rw [List.foldl_cons, matchAccumD_nonfinite q hq acc e, ih]

theorem getMatchByDistanceD_nonfinite (st : DState) (q : DCoordinate)
    (hq : ¬ q.finite) :
    getMatchByDistanceD st q =
      (st.next_model_id, { st with next_model_id := st.next_model_id + 1 }) := by
  unfold getMatchByDistanceD
  rw [matchFoldD_nonfinite q hq]
  rfl

/-- C6 counterexample: an observation whose x coordinate is non-finite and
whose other coordinates agree exactly with the tracked model at id 0 is NOT
rejected: its squared distance evaluates to the non-finite marker, every
acceptance comparison is false, the matcher hands it the fresh identity 1,
and `matchToPrevious` (the only ingestion path of `updateObstacles`, which
has no validation branch at all) stores the non-finite observation in the
tracked table. -/
theorem C6_counterexample :
    sqDistD ⟨some 0, some 0, some 0⟩ ⟨none, some 0, some 0⟩ = none ∧
    (sqDistD ⟨some 0, some 0, some 0⟩ ⟨none, some 0, some 0⟩).leD (some (5 / 100)) = false ∧
    getMatchByDistanceD ⟨1, [(0, ⟨some 0, some 0, some 0⟩)]⟩ ⟨none, some 0, some 0⟩ =
      (1, ⟨2, [(0, ⟨some 0, some 0, some 0⟩)]⟩) ∧
    mapFind 1 (matchToPreviousD ⟨1, [(0, ⟨some 0, some 0, some 0⟩)]⟩
        [⟨none, some 0, some 0⟩]).2.tracked_models =
      some ⟨none, some 0, some 0⟩ := by
  refine ⟨rfl, rfl, ?_, ?_⟩ <;>
    norm_num [getMatchByDistanceD, matchAccumD, sqDistD, DVal.sub, DVal.mul,
      DVal.add, DVal.leD, matchToPreviousD, scanStepD, mapInsert, mapFind,
      List.get?]

/-- C6 (amended): the tracker performs no validation of observations — there
is no rejection path. A non-finite reference point never satisfies a
distance comparison: its squared distance against any tracked point is the
non-finite marker and the acceptance test is false, so the matcher never
treats any tracked model as a candidate and instead allocates a fresh id;
the scan then inserts the non-finite observation itself into the tracked
table, propagating the non-finite values into tracked state. -/
theorem C6_no_validation :
    (∀ p q : DCoordinate, ¬ q.finite →
      sqDistD p q = none ∧ (sqDistD p q).leD (some (5 / 100)) = false) ∧
    (∀ (st : DState) (q : DCoordinate), ¬ q.finite →
      getMatchByDistanceD st q =
        (st.next_model_id, { st with next_model_id := st.next_model_id + 1 })) ∧
    (∀ (st : DState) (q : DCoordinate), ¬ q.finite →
      (∀ e ∈ st.tracked_models, e.1 < st.next_model_id) →
      (matchToPreviousD st [q]).1 = [(st.next_model_id, 0)] ∧
      mapFind st.next_model_id (matchToPreviousD st [q]).2.tracked_models = some q) := by
  refine ⟨?_, ?_, ?_⟩
  · intro p q hq
    refine ⟨sqDistD_nonfinite p q hq, ?_⟩
    rw [sqDistD_nonfinite p q hq, DVal.leD_none]
  · intro st q hq
    exact getMatchByDistanceD_nonfinite st q hq
  · intro st q hq hfresh
    have hnone : mapFind st.next_model_id st.tracked_models = none :=
      mapFind_eq_none_of_forall (fun e he => ne_of_lt (hfresh e he))
    unfold matchToPreviousD
    rw [List.foldl_cons, List.foldl_nil]
    have s1 : scanStepD ⟨st, [], [], 0⟩ q =
        ⟨{ st with next_model_id := st.next_model_id + 1 },
          [(st.next_model_id, 0)], [(st.next_model_id, 0)], 1⟩ := by
      simp [scanStepD, getMatchByDistanceD_nonfinite st q hq, hnone, mapInsert]
    rw [s1]
    simp [mapInsert, mapFind_mapInsert_self, List.get?]



end Lepp
